import Mathlib

/-!
Verification development for the SASP / SCIL payroll cross-reference system.

The Python sources (`app.py`, `core/database.py`, `core/data_processor.py`)
are shallowly embedded below.  SQLite tables become lists of rows, Python
dicts become association lists (first-occurrence key order, last-write-wins
values, as in CPython), Python sets become duplicate-free lists read up to
membership, and `CURRENT_TIMESTAMP` becomes an explicit `Nat` clock value
supplied by the caller.  String primitives are implemented structurally on
`List Char` so that every definition evaluates inside the kernel.  Where the
source sorts a list purely for display the embedding keeps the underlying
list and the theorems speak about membership.
-/

/- ===================================================================
   String utilities shared by every component.
   =================================================================== -/

/-- ASCII-only uppercasing of one character: the behaviour of SQLite's
`UPPER` and the base case of Python's `str.upper()`. -/
def asciiUpper (c : Char) : Char :=
  if 'a' ≤ c && c ≤ 'z' then Char.ofNat (c.toNat - 32) else c

/-- ASCII-only lowercasing of one character. -/
def asciiLower (c : Char) : Char :=
  if 'A' ≤ c && c ≤ 'Z' then Char.ofNat (c.toNat + 32) else c

/-- Python `str.upper()` on one character, restricted to the alphabet that
occurs in the repository's data: ASCII plus the accented Spanish vowels and
`ñ`/`ü`.  CPython uppercases the accented letters; SQLite's `UPPER`
(`asciiUpper`) does not. -/
def pyUpperChar (c : Char) : Char :=
  if c = 'á' then 'Á' else if c = 'é' then 'É' else if c = 'í' then 'Í'
  else if c = 'ó' then 'Ó' else if c = 'ú' then 'Ú' else if c = 'ñ' then 'Ñ'
  else if c = 'ü' then 'Ü' else asciiUpper c

/-- Python `str.lower()` on one character, same alphabet. -/
def pyLowerChar (c : Char) : Char :=
  if c = 'Á' then 'á' else if c = 'É' then 'é' else if c = 'Í' then 'í'
  else if c = 'Ó' then 'ó' else if c = 'Ú' then 'ú' else if c = 'Ñ' then 'ñ'
  else if c = 'Ü' then 'ü' else asciiLower c

/-- Python `str.strip()` on the character list. -/
def trimL (l : List Char) : List Char :=
  ((l.dropWhile Char.isWhitespace).reverse.dropWhile Char.isWhitespace).reverse

/-- Python `str.strip().upper()` — no accent stripping; this is
`_sanitize_text` of app.py (modulo the `str(s or "")` coercion, which is the
identity on strings). -/
def sanitizeText (s : String) : String :=
  String.mk ((trimL s.data).map pyUpperChar)

/-- SQLite `UPPER`: ASCII-only uppercasing of the whole string. -/
def sqlUpper (s : String) : String :=
  String.mk (s.data.map asciiUpper)

/-- The accent-stripping loop of `DatabaseManager._sanitize`
(`for a, b in zip("ÁÉÍÓÚ", "AEIOU"): s = s.replace(a, b)`); replacing
single characters equals mapping over the characters. -/
def quitarAcentoChar (c : Char) : Char :=
  if c = 'Á' then 'A' else if c = 'É' then 'E' else if c = 'Í' then 'I'
  else if c = 'Ó' then 'O' else if c = 'Ú' then 'U' else c

/-- `DatabaseManager._sanitize` (core/database.py 240–246): falsy input maps
to `""`, otherwise `str(s).strip().upper()` followed by accent replacement. -/
def sanitize (s : String) : String :=
  if s = "" then ""
  else String.mk (((trimL s.data).map pyUpperChar).map quitarAcentoChar)

/-- Python's substring test `sub in s`. -/
def contiene (s sub : String) : Bool :=
  decide (sub.data.IsInfix s.data)

/-- Digit-string parsing: Python's `s.isdigit() and int(s)` on ASCII digits
(`none` on the empty string or any non-digit). -/
def digitosANat (l : List Char) : Option Nat :=
  match l with
  | [] => none
  | _ => l.foldl
      (fun acc c =>
        match acc with
        | none => none
        | some n => if c.isDigit then some (n * 10 + (c.toNat - 48)) else none)
      (some 0)

/-- Python `int(s)` on an optionally `-`-signed digit string, `none` when
`int` would raise `ValueError`. -/
def parseEntero (s : String) : Option Int :=
  match trimL s.data with
  | '-' :: resto => (digitosANat resto).map (fun n => -(n : Int))
  | l => (digitosANat l).map (fun n => (n : Int))

/- ===================================================================
   A stable insertion sort.

   Python's `list.sort`/`sorted` is a stable sort by a key function; for a
   total transitive comparator a stable sort's output is unique, so this
   insertion sort computes the same list.  It also evaluates inside the
   kernel, unlike `List.mergeSort`.
   =================================================================== -/

def insertarOrd (le : α → α → Bool) (x : α) : List α → List α
  | [] => [x]
  | y :: rest => if le x y then x :: y :: rest else y :: insertarOrd le x rest

def ordenarPor (le : α → α → Bool) (l : List α) : List α :=
  l.foldr (insertarOrd le) []

theorem insertarOrd_perm (le : α → α → Bool) (x : α) (l : List α) :
    (insertarOrd le x l).Perm (x :: l) := by
  induction l with
  | nil => simp [insertarOrd]
  | cons y rest ih =>
    cases h : le x y with
    | true => simp [insertarOrd, h]
    | false =>
      simp only [insertarOrd, h, Bool.false_eq_true, if_false]
      exact (ih.cons y).trans (List.Perm.swap x y rest)

theorem ordenarPor_perm (le : α → α → Bool) (l : List α) :
    (ordenarPor le l).Perm l := by
  induction l with
  | nil => simp [ordenarPor]
  | cons x rest ih =>
    exact (insertarOrd_perm le x (ordenarPor le rest)).trans (ih.cons x)

theorem insertarOrd_sorted (le : α → α → Bool)
    (htot : ∀ a b, le a b || le b a)
    (htrans : ∀ a b c, le a b = true → le b c = true → le a c = true)
    (x : α) (l : List α) (h : l.Pairwise (fun a b => le a b = true)) :
    (insertarOrd le x l).Pairwise (fun a b => le a b = true) := by
  induction l with
  | nil => simp [insertarOrd]
  | cons y rest ih =>
    rcases List.pairwise_cons.1 h with ⟨hy, hrest⟩
    cases hxy : le x y with
    | true =>
      simp only [insertarOrd, hxy, if_true]
      refine List.pairwise_cons.2 ⟨?_, h⟩
      intro b hb
      rcases List.mem_cons.1 hb with rfl | hb
      · exact hxy
      · exact htrans x y b hxy (hy b hb)
    | false =>
      simp only [insertarOrd, hxy, Bool.false_eq_true, if_false]
      refine List.pairwise_cons.2 ⟨?_, ih hrest⟩
      intro b hb
      have hmem := (insertarOrd_perm le x rest).mem_iff.1 hb
      rcases List.mem_cons.1 hmem with rfl | hb'
      · have := htot b y
        simp [hxy] at this
        exact this
      · exact hy b hb'

theorem ordenarPor_sorted (le : α → α → Bool)
    (htot : ∀ a b, le a b || le b a)
    (htrans : ∀ a b c, le a b = true → le b c = true → le a c = true)
    (l : List α) :
    (ordenarPor le l).Pairwise (fun a b => le a b = true) := by
  induction l with
  | nil => simp [ordenarPor]
  | cons x rest ih => exact insertarOrd_sorted le htot htrans x _ ih

/-- Comparator for `Nat` used wherever Python sorts period numbers. -/
def leNat (a b : Nat) : Bool := a ≤ b

/-- Python string `<=`: code-point lexicographic order on characters. -/
def leCadenaL : List Char → List Char → Bool
  | [], _ => true
  | _ :: _, [] => false
  | a :: as, b :: bs =>
    if a.toNat < b.toNat then true
    else if a = b then leCadenaL as bs else false

def leCadena (a b : String) : Bool := leCadenaL a.data b.data

/- ===================================================================
   Entitlement Resolver (`_allowed_all`, app.py lines 83–114).
   =================================================================== -/

/-- The one-pass flag computation of `_allowed_all`: the loop over the
user's tokens setting `tiene_todos`, `tiene_entes`, `tiene_munis`. -/
def banderasTodos (entesUsuario : List String) : Bool × Bool × Bool :=
  entesUsuario.foldl
    (fun b e =>
      let s := sanitizeText e
      (b.1 || decide (s = "TODOS"),
       b.2.1 || (contiene s "TODOS" && contiene s "ENTE"),
       b.2.2 || (contiene s "TODOS" && contiene s "MUNICIP")))
    (false, false, false)

/-- `_allowed_all` (app.py): classifies a user's granted tokens into
`some "ALL"`, `some "ENTES"`, `some "MUNICIPIOS"` or `none`. -/
def allowedAll (entesUsuario : List String) : Option String :=
  let b := banderasTodos entesUsuario
  if b.1 || (b.2.1 && b.2.2) then some "ALL"
  else if b.2.1 then some "ENTES"
  else if b.2.2 then some "MUNICIPIOS"
  else none

/-- The all-access token is present (a token sanitizing to exactly `TODOS`). -/
def TieneTodos (tokens : List String) : Prop :=
  ∃ t ∈ tokens, sanitizeText t = "TODOS"

/-- A token matches the all-organizations pattern
(`"TODOS" in s and "ENTE" in s`). -/
def TieneEntes (tokens : List String) : Prop :=
  ∃ t ∈ tokens, "TODOS".data.IsInfix (sanitizeText t).data ∧
    "ENTE".data.IsInfix (sanitizeText t).data

/-- A token matches the all-municipalities pattern
(`"TODOS" in s and "MUNICIP" in s`). -/
def TieneMunis (tokens : List String) : Prop :=
  ∃ t ∈ tokens, "TODOS".data.IsInfix (sanitizeText t).data ∧
    "MUNICIP".data.IsInfix (sanitizeText t).data

theorem foldl_bool_triple (l : List String)
    (p1 p2 p3 : String → Bool) (b : Bool × Bool × Bool) :
    l.foldl (fun b e => (b.1 || p1 e, b.2.1 || p2 e, b.2.2 || p3 e)) b =
      (b.1 || l.any p1, b.2.1 || l.any p2, b.2.2 || l.any p3) := by
  induction l generalizing b with
  | nil => simp
  | cons x xs ih =>
    simp only [List.foldl_cons, List.any_cons, ih, Bool.or_assoc]

theorem banderasTodos_spec (tokens : List String) :
    banderasTodos tokens =
      (tokens.any (fun e => decide (sanitizeText e = "TODOS")),
       tokens.any (fun e => contiene (sanitizeText e) "TODOS" &&
                            contiene (sanitizeText e) "ENTE"),
       tokens.any (fun e => contiene (sanitizeText e) "TODOS" &&
                            contiene (sanitizeText e) "MUNICIP")) := by
  unfold banderasTodos
  rw [foldl_bool_triple]
  simp

theorem contiene_iff (s sub : String) :
    contiene s sub = true ↔ sub.data.IsInfix s.data := by
  simp [contiene]

theorem banderasTodos_fst (tokens : List String) :
    (banderasTodos tokens).1 = true ↔ TieneTodos tokens := by
  rw [banderasTodos_spec]
  simp [TieneTodos, List.any_eq_true]

theorem banderasTodos_snd (tokens : List String) :
    (banderasTodos tokens).2.1 = true ↔ TieneEntes tokens := by
  rw [banderasTodos_spec]
  simp [TieneEntes, List.any_eq_true, contiene_iff]

theorem banderasTodos_trd (tokens : List String) :
    (banderasTodos tokens).2.2 = true ↔ TieneMunis tokens := by
  rw [banderasTodos_spec]
  simp [TieneMunis, List.any_eq_true, contiene_iff]

/-- C6: Entitlement classification.  A token set with the all-access token
(`TODOS`) classifies to `ALL`; otherwise the organizations wildcard pattern
and the municipalities wildcard pattern set flags, both flags give `ALL`,
only the organizations flag gives the organizations-only mode (`ENTES`),
only the municipalities flag gives the municipalities-only mode
(`MUNICIPIOS`), and neither gives the explicit mode (`none`, in which each
token is resolved individually by the caller's fallback branch). -/
theorem c6_clasificacion_permisos (tokens : List String) :
    (allowedAll tokens = some "ALL" ↔
      TieneTodos tokens ∨ (TieneEntes tokens ∧ TieneMunis tokens)) ∧
    (allowedAll tokens = some "ENTES" ↔
      ¬ TieneTodos tokens ∧ TieneEntes tokens ∧ ¬ TieneMunis tokens) ∧
    (allowedAll tokens = some "MUNICIPIOS" ↔
      ¬ TieneTodos tokens ∧ ¬ TieneEntes tokens ∧ TieneMunis tokens) ∧
    (allowedAll tokens = none ↔
      ¬ TieneTodos tokens ∧ ¬ TieneEntes tokens ∧ ¬ TieneMunis tokens) := by
  have h1 := banderasTodos_fst tokens
  have h2 := banderasTodos_snd tokens
  have h3 := banderasTodos_trd tokens
  unfold allowedAll
  rcases hb1 : (banderasTodos tokens).1 <;>
    rcases hb2 : (banderasTodos tokens).2.1 <;>
    rcases hb3 : (banderasTodos tokens).2.2 <;>
    simp_all

/- ===================================================================
   Unified entity cache (`_entes_cache`, app.py lines 128–154) and the
   permission helpers built on it.
   =================================================================== -/

/-- One value of the `_entes_cache()` dictionary: normalized acronym, name
and kind (`"ENTE"` or `"MUNICIPIO"`). -/
structure InfoEnte where
  siglas : String
  nombre : String
  tipo : String
deriving DecidableEq, Repr

/-- The `_entes_cache()` dictionary `{clave: {siglas, nombre, tipo}}`,
as an association list in dict insertion order (claves are unique in the
database, so first-match lookup agrees with the dict). -/
abbrev CacheEntes := List (String × InfoEnte)

/-- Dict lookup `_entes_cache().get(clave)`. -/
def buscarCache (cache : CacheEntes) (clave : String) : Option InfoEnte :=
  (cache.find? (fun kd => kd.1 = clave)).map (·.2)

/-- `_ente_match` (app.py lines 157–174): the user's token matches a listed
clave when some cache entry is alias-matched by both. -/
def enteMatch (cache : CacheEntes) (enteUsuario : String) (claveLista : List String) : Bool :=
  let euser := sanitizeText enteUsuario
  claveLista.any (fun c =>
    let cNorm := sanitizeText c
    cache.any (fun kd =>
      (euser = kd.2.siglas || euser = kd.2.nombre || euser = kd.1) &&
      (cNorm = kd.2.siglas || cNorm = kd.2.nombre || cNorm = kd.1)))

/-- The permission branch of the cross-reference results view
(app.py lines 308–320).  Default kind is `""` (`info_ente.get("tipo", "")`),
and the chain tests the literal `"MUNICIPIO"` for the municipalities mode. -/
def permisoCruce (cache : CacheEntes) (modo : Option String)
    (entesUsuario : List String) (e : String) : Bool :=
  let tipoEnte := ((buscarCache cache (sanitizeText e)).map (·.tipo)).getD ""
  if modo = some "ALL" then true
  else if modo = some "ENTES" then decide (tipoEnte = "ENTE")
  else if modo = some "MUNICIPIO" then decide (tipoEnte = "MUNICIPIO")
  else entesUsuario.any (fun eu => enteMatch cache eu [e])

/-- The permission branch of the catalog listing in the same view
(app.py lines 379–394).  Default kind is `"ENTE"`
(`info_ente.get("tipo", "ENTE")`), and the chain tests `"MUNICIPIOS"`. -/
def permisoCatalogo (cache : CacheEntes) (modo : Option String)
    (entesUsuario : List String) (clave : String) : Bool :=
  let tipoEnte := ((buscarCache cache (sanitizeText clave)).map (·.tipo)).getD "ENTE"
  if modo = some "ALL" then true
  else if modo = some "ENTES" then decide (tipoEnte = "ENTE")
  else if modo = some "MUNICIPIOS" then decide (tipoEnte = "MUNICIPIO")
  else entesUsuario.any (fun eu => enteMatch cache eu [clave])

/-- A municipality entry and a municipalities-only user, for exercising the
two permission branches. -/
def cacheEjemplo : CacheEntes :=
  [("MUN_1", ⟨"ACUAMANALA", "MUNICIPIO DE ACUAMANALA", "MUNICIPIO"⟩)]

def tokensMunicipios : List String := ["TODOS LOS MUNICIPIOS"]

/-- C3 (code bug): for a user whose tokens classify to the
municipalities-only mode, the catalog branch permits exactly the
MUNICIPALITY-kind entities, but the cross-reference branch compares the mode
against the misspelled literal `"MUNICIPIO"` (the resolver returns
`"MUNICIPIOS"`), falls through to the explicit-alias branch, and denies the
very same municipality entity.  The kind-based filter is therefore not
applied uniformly to the two views, contradicting the claim. -/
theorem c3_filtro_no_uniforme :
    allowedAll tokensMunicipios = some "MUNICIPIOS" ∧
    permisoCatalogo cacheEjemplo (allowedAll tokensMunicipios) tokensMunicipios "MUN_1" = true ∧
    permisoCruce cacheEjemplo (allowedAll tokensMunicipios) tokensMunicipios "MUN_1" = false := by
  refine ⟨by decide, by decide, by decide⟩

/- ===================================================================
   Entity registry rows and the alias resolver
   (`DatabaseManager.normalizar_ente_clave`, core/database.py 273–294).
   =================================================================== -/

/-- A row of the `entes` / `municipios` tables (the columns the embedded
functions read).  `siglas` is nullable in the schema. -/
structure Ente where
  num : String
  clave : String
  nombre : String
  siglas : Option String
  activo : Bool
deriving DecidableEq, Repr

/-- `DatabaseManager.normalizar_ente_clave`: sanitize the input, then scan
the `UNION ALL` of active `entes` and `municipios` rows for the first row
with `UPPER(siglas) = val OR UPPER(nombre) = val OR UPPER(clave) = val` and
return its `clave`.  SQLite's `UPPER` only uppercases ASCII letters
(`sqlUpper`); `UPPER(NULL) = val` is not true. -/
def normalizarEnteClave (catalogo : List Ente) (valor : String) : Option String :=
  if valor = "" then none
  else
    let val := sanitize valor
    ((catalogo.filter (·.activo)).find? (fun e =>
        (match e.siglas with
         | some s => decide (sqlUpper s = val)
         | none => false) ||
        decide (sqlUpper e.nombre = val) || decide (sqlUpper e.clave = val))).map (·.clave)

/-- The three seeded rows of `poblar_datos_iniciales`
(core/database.py lines 146–150). -/
def entesBase : List Ente :=
  [⟨"1.2", "ENTE_1_2", "Secretaría de Gobierno", some "SEGOB", true⟩,
   ⟨"1.4", "ENTE_1_4", "Secretaría de Finanzas", some "SEFIN", true⟩,
   ⟨"1.8", "ENTE_1_8", "Secretaría de Educación Pública", some "SEPE", true⟩]

/-- C4 (code bug): on the seeded registry, the resolver round-trips the key
and the acronym of `ENTE_1_2`, but fails on its full name: `_sanitize`
strips the accent from the input (giving `SECRETARIA DE GOBIERNO`) while
the SQL side only ASCII-uppercases the stored name (giving
`SECRETARíA DE GOBIERNO`), so the comparison fails and the lookup returns
`none` instead of the entity's canonical key. -/
theorem c4_alias_no_roundtrip :
    normalizarEnteClave entesBase "ENTE_1_2" = some "ENTE_1_2" ∧
    normalizarEnteClave entesBase "SEGOB" = some "ENTE_1_2" ∧
    normalizarEnteClave entesBase "Secretaría de Gobierno" = none := by
  refine ⟨by decide, by decide, by decide⟩

/- ===================================================================
   Employment records and the Cross-Reference Detector
   (`DatabaseManager.obtener_cruces_reales`, core/database.py 413–489;
   `_filtrar_duplicados_reales`, app.py 548–589).
   =================================================================== -/

/-- A row of `registros_laborales` as read by the detector (`qnas` is stored
as a JSON object; the detector only uses its key set, embedded here as the
list of keys of the dict, unique and in insertion order). -/
structure RegistroLaboral where
  rfc : String
  ente : String
  nombre : String
  puesto : String
  fechaIngreso : Option String
  fechaEgreso : Option String
  monto : Option String
  qnas : List String
deriving DecidableEq, Repr

/-- First-occurrence deduplication: the key order of a Python dict populated
by iterating a list (structural formulation: deduplicate the tail, then
drop the head's later duplicates). -/
def dedupPrimero : List String → List String
  | [] => []
  | x :: xs => x :: (dedupPrimero xs).filter (fun y => decide (y ≠ x))

theorem mem_dedupPrimero (a : String) (l : List String) :
    a ∈ dedupPrimero l ↔ a ∈ l := by
  induction l with
  | nil => simp [dedupPrimero]
  | cons x xs ih =>
    rw [dedupPrimero]
    by_cases hax : a = x
    · subst hax; simp
    · simp only [List.mem_cons, hax, false_or, List.mem_filter,
        decide_eq_true_eq, ih]
      exact ⟨fun h => h.1, fun h => ⟨h, hax⟩⟩

theorem nodup_dedupPrimero (l : List String) : (dedupPrimero l).Nodup := by
  induction l with
  | nil => simp [dedupPrimero]
  | cons x xs ih =>
    rw [dedupPrimero]
    refine List.nodup_cons.2 ⟨?_, ih.filter _⟩
    simp

theorem dedupPrimero_eq_self {l : List String} (h : l.Nodup) :
    dedupPrimero l = l := by
  induction l with
  | nil => simp [dedupPrimero]
  | cons x xs ih =>
    rcases List.nodup_cons.1 h with ⟨hx, hxs⟩
    rw [dedupPrimero, ih hxs]
    have : xs.filter (fun y => decide (y ≠ x)) = xs := by
      apply List.filter_eq_self.2
      intro y hy
      simp only [decide_eq_true_eq]
      intro hyx
      exact hx (hyx ▸ hy)
    rw [this]

/-- The value of the dict `qnas_por_ente` at key `e`: the `qnas` key set of
the **last** record in the group with that `ente` (later loop iterations
overwrite earlier ones), empty if no such record. -/
def qnasDeEnte (grp : List RegistroLaboral) (e : String) : List String :=
  match grp.reverse.find? (fun r => decide (r.ente = e)) with
  | some r => r.qnas
  | none => []

/-- All ordered pairs `(l[i], l[j])` with `i < j`: the nested
`for i / for j in range(i+1, …)` loops over `entes_list`. -/
def paresOrdenados : List String → List (String × String)
  | [] => []
  | x :: xs => xs.map (fun y => (x, y)) ++ paresOrdenados xs

/-- Python set intersection, as a membership-filter on the first list. -/
def interLista (a b : List String) : List String :=
  a.filter (fun q => decide (q ∈ b))

/-- The dict keys `entes_list = list(qnas_por_ente.keys())` of a group. -/
def entesDelGrupo (grp : List RegistroLaboral) : List String :=
  dedupPrimero (grp.map (·.ente))

/-- `qnas_con_cruce`: the union over all entity pairs of the pairwise
intersections of active-period sets. -/
def qnasConCruce (grp : List RegistroLaboral) : List String :=
  (paresOrdenados (entesDelGrupo grp)).flatMap
    (fun p => interLista (qnasDeEnte grp p.1) (qnasDeEnte grp p.2))

/-- `entes_con_cruce`: the entities of the pairs whose intersection is
non-empty. -/
def entesConCruce (grp : List RegistroLaboral) : List String :=
  (paresOrdenados (entesDelGrupo grp)).flatMap
    (fun p =>
      if (interLista (qnasDeEnte grp p.1) (qnasDeEnte grp p.2)).isEmpty then []
      else [p.1, p.2])

/-- One detected cross-reference (`cruces` entry of
`obtener_cruces_reales`).  The source sorts `entes` and `qnas_cruce` for
display; the embedding keeps them as computed, read up to membership. -/
structure Cruce where
  rfc : String
  nombre : String
  entes : List String
  qnasCruce : List String
  registros : List RegistroLaboral
  estado : String
  solventacion : String
deriving DecidableEq, Repr

/-- The body of the per-RFC loop of `obtener_cruces_reales`: groups of
fewer than two records are skipped, and a group yields a cross-reference
exactly when some pairwise intersection is non-empty. -/
def detectarCruceRfc (rfc : String) (grp : List RegistroLaboral) : Option Cruce :=
  if grp.length < 2 then none
  else if (qnasConCruce grp).isEmpty then none
  else some
    { rfc := rfc
      nombre := ((grp.head?).map (·.nombre)).getD ""
      entes := entesConCruce grp
      qnasCruce := qnasConCruce grp
      registros := grp
      estado := "Sin valoración"
      solventacion := "" }

/-- `DatabaseManager.obtener_cruces_reales`: group all records by RFC
(dict insertion order = first occurrence) and detect the groups with a
genuine pairwise period overlap. -/
def obtenerCrucesReales (registros : List RegistroLaboral) : List Cruce :=
  (dedupPrimero (registros.map (·.rfc))).filterMap
    (fun rfc => detectarCruceRfc rfc (registros.filter (fun r => decide (r.rfc = rfc))))

/-- A filtered result of `_filtrar_duplicados_reales` (app.py 548–589):
the original cross-reference plus `entes_cruce_real`. -/
structure CruceFiltrado where
  cruce : Cruce
  entesCruceReal : List String
deriving DecidableEq, Repr

/-- `_filtrar_duplicados_reales`: re-derives `qnas_por_ente` from the
stored `registros` of each result, keeps the result only when some pair of
entities has a non-empty period intersection (`duplicidad_real`), and
attaches the union of the entities of such pairs.  That recomputation is
exactly `entesConCruce` on the result's record group. -/
def filtrarDuplicadosReales (resultados : List Cruce) : List CruceFiltrado :=
  resultados.filterMap
    (fun r =>
      let ecr := entesConCruce r.registros
      if ecr.isEmpty then none else some ⟨r, ecr⟩)

/-- The composite keys `(rfc, ente)` of a record list; the `UNIQUE(rfc,
ente)` constraint of `registros_laborales` makes them duplicate-free for
any list read from the store. -/
def clavesRegistro (registros : List RegistroLaboral) : List (String × String) :=
  registros.map (fun r => (r.rfc, r.ente))

/- Helper lemmas for the detector. -/

theorem find?_unico {p : α → Bool} {l : List α} {r : α}
    (hr : r ∈ l) (hp : p r = true) (huniq : ∀ x ∈ l, p x = true → x = r) :
    l.find? p = some r := by
  induction l with
  | nil => cases hr
  | cons x xs ih =>
    by_cases hx : p x = true
    · have hxe : x = r := huniq x (List.mem_cons_self x xs) hx
      subst hxe
      simp [List.find?, hx]
    · have hxr : x ≠ r := fun hxe => hx (hxe ▸ hp)
      have hr' : r ∈ xs := by
        rcases List.mem_cons.1 hr with rfl | h'
        · exact absurd rfl hxr.symm
        · exact h'
      simp only [List.find?]
      rw [Bool.eq_false_iff.2 hx]
      exact ih hr' (fun y hy hpy => huniq y (List.mem_cons_of_mem x hy) hpy)

theorem qnasDeEnte_eq {grp : List RegistroLaboral}
    (hng : (grp.map (·.ente)).Nodup) {r : RegistroLaboral} (hr : r ∈ grp) :
    qnasDeEnte grp r.ente = r.qnas := by
  unfold qnasDeEnte
  have hinj := List.inj_on_of_nodup_map hng
  have huniq : ∀ x ∈ grp.reverse, (decide (x.ente = r.ente)) = true → x = r := by
    intro x hx hpx
    exact hinj (List.mem_reverse.1 hx) hr (by simpa using hpx)
  rw [find?_unico (List.mem_reverse.2 hr) (by simp) huniq]

/-- The per-RFC group: `rfcs_map[rfc]` of `obtener_cruces_reales`. -/
def grupoRfc (registros : List RegistroLaboral) (rfc : String) : List RegistroLaboral :=
  registros.filter (fun r => decide (r.rfc = rfc))

theorem mem_grupoRfc {registros : List RegistroLaboral} {rfc : String}
    {r : RegistroLaboral} : r ∈ grupoRfc registros rfc ↔ r ∈ registros ∧ r.rfc = rfc := by
  simp [grupoRfc]

theorem grupo_entes_nodup {registros : List RegistroLaboral}
    (h : (clavesRegistro registros).Nodup) (rfc : String) :
    ((grupoRfc registros rfc).map (·.ente)).Nodup := by
  have hsub : (clavesRegistro (grupoRfc registros rfc)).Sublist (clavesRegistro registros) :=
    (List.filter_sublist registros).map _
  have hnd : (clavesRegistro (grupoRfc registros rfc)).Nodup := hsub.nodup h
  unfold clavesRegistro at hnd
  unfold List.Nodup at hnd ⊢
  rw [List.pairwise_map] at hnd ⊢
  refine hnd.imp_of_mem ?_
  intro a b ha hb hne he
  have hra := (mem_grupoRfc.1 ha).2
  have hrb := (mem_grupoRfc.1 hb).2
  exact hne (by rw [hra, hrb, he])

theorem mem_paresOrdenados {l : List String} {a b : String}
    (h : (a, b) ∈ paresOrdenados l) : a ∈ l ∧ b ∈ l := by
  induction l with
  | nil => cases h
  | cons x xs ih =>
    rw [paresOrdenados, List.mem_append] at h
    rcases h with h | h
    · rcases List.mem_map.1 h with ⟨y, hy, he⟩
      cases he
      exact ⟨List.mem_cons_self _ _, List.mem_cons_of_mem _ hy⟩
    · rcases ih h with ⟨ha, hb⟩
      exact ⟨List.mem_cons_of_mem _ ha, List.mem_cons_of_mem _ hb⟩

theorem paresOrdenados_ne {l : List String} (hnd : l.Nodup) {a b : String}
    (h : (a, b) ∈ paresOrdenados l) : a ≠ b := by
  induction l with
  | nil => cases h
  | cons x xs ih =>
    rcases List.nodup_cons.1 hnd with ⟨hx, hxs⟩
    rw [paresOrdenados, List.mem_append] at h
    rcases h with h | h
    · rcases List.mem_map.1 h with ⟨y, hy, he⟩
      cases he
      intro hab
      exact hx (hab ▸ hy)
    · exact ih hxs h

theorem paresOrdenados_total {l : List String} {a b : String}
    (ha : a ∈ l) (hb : b ∈ l) (hne : a ≠ b) :
    (a, b) ∈ paresOrdenados l ∨ (b, a) ∈ paresOrdenados l := by
  induction l with
  | nil => cases ha
  | cons x xs ih =>
    by_cases hax : a = x
    · subst hax
      have hbx : b ∈ xs := by
        rcases List.mem_cons.1 hb with rfl | h'
        · exact absurd rfl hne
        · exact h'
      left
      rw [paresOrdenados, List.mem_append]
      exact Or.inl (List.mem_map.2 ⟨b, hbx, rfl⟩)
    · by_cases hbx : b = x
      · subst hbx
        have hax' : a ∈ xs := by
          rcases List.mem_cons.1 ha with rfl | h'
          · exact absurd rfl hax
          · exact h'
        right
        rw [paresOrdenados, List.mem_append]
        exact Or.inl (List.mem_map.2 ⟨a, hax', rfl⟩)
      · have ha' : a ∈ xs := by
          rcases List.mem_cons.1 ha with rfl | h'
          · exact absurd rfl hax
          · exact h'
        have hb' : b ∈ xs := by
          rcases List.mem_cons.1 hb with rfl | h'
          · exact absurd rfl hbx
          · exact h'
        rcases ih ha' hb' with h | h
        · left; rw [paresOrdenados, List.mem_append]; exact Or.inr h
        · right; rw [paresOrdenados, List.mem_append]; exact Or.inr h

theorem mem_interLista {a b : List String} {q : String} :
    q ∈ interLista a b ↔ q ∈ a ∧ q ∈ b := by
  simp [interLista]

theorem mem_entesDelGrupo {grp : List RegistroLaboral} {e : String} :
    e ∈ entesDelGrupo grp ↔ ∃ r ∈ grp, r.ente = e := by
  simp [entesDelGrupo, mem_dedupPrimero]

theorem mem_qnasConCruce {grp : List RegistroLaboral} {q : String} :
    q ∈ qnasConCruce grp ↔
      ∃ p ∈ paresOrdenados (entesDelGrupo grp),
        q ∈ qnasDeEnte grp p.1 ∧ q ∈ qnasDeEnte grp p.2 := by
  simp [qnasConCruce, List.mem_flatMap, mem_interLista]

theorem mem_entesConCruce {grp : List RegistroLaboral} {e : String} :
    e ∈ entesConCruce grp ↔
      ∃ p ∈ paresOrdenados (entesDelGrupo grp),
        (e = p.1 ∨ e = p.2) ∧
        ∃ q, q ∈ qnasDeEnte grp p.1 ∧ q ∈ qnasDeEnte grp p.2 := by
  unfold entesConCruce
  rw [List.mem_flatMap]
  constructor
  · rintro ⟨p, hp, hmem⟩
    by_cases he : (interLista (qnasDeEnte grp p.1) (qnasDeEnte grp p.2)).isEmpty
    · rw [if_pos he] at hmem; cases hmem
    · rw [if_neg he] at hmem
      rcases List.isEmpty_eq_false.1 (Bool.eq_false_iff.2 he) with hne
      rcases List.exists_mem_of_ne_nil _ hne with ⟨q, hq⟩
      rcases mem_interLista.1 hq with ⟨hq1, hq2⟩
      refine ⟨p, hp, ?_, q, hq1, hq2⟩
      simpa using hmem
  · rintro ⟨p, hp, hor, q, hq1, hq2⟩
    refine ⟨p, hp, ?_⟩
    have hne : interLista (qnasDeEnte grp p.1) (qnasDeEnte grp p.2) ≠ [] := by
      intro hnil
      have : q ∈ interLista (qnasDeEnte grp p.1) (qnasDeEnte grp p.2) :=
        mem_interLista.2 ⟨hq1, hq2⟩
      rw [hnil] at this
      cases this
    rw [if_neg (by simpa using hne)]
    rcases hor with rfl | rfl
    · exact List.mem_cons_self _ _
    · exact List.mem_cons_of_mem _ (List.mem_cons_self _ _)

theorem dos_miembros_length {l : List α} {a b : α}
    (ha : a ∈ l) (hb : b ∈ l) (hne : a ≠ b) : 2 ≤ l.length := by
  cases l with
  | nil => cases ha
  | cons x xs =>
    cases xs with
    | nil =>
      rcases List.mem_singleton.1 ha with rfl
      rcases List.mem_singleton.1 hb with rfl
      exact absurd rfl hne
    | cons y ys => simp [Nat.succ_le_succ, Nat.le_add_left]

/-- The bridge between pairwise intersections of the `qnas_por_ente` dict
and the record-level statement, under uniqueness of `(rfc, ente)`. -/
theorem cruce_par_iff {registros : List RegistroLaboral}
    (h : (clavesRegistro registros).Nodup) (rfc : String) (q : String) :
    (∃ p ∈ paresOrdenados (entesDelGrupo (grupoRfc registros rfc)),
        q ∈ qnasDeEnte (grupoRfc registros rfc) p.1 ∧
        q ∈ qnasDeEnte (grupoRfc registros rfc) p.2) ↔
      (∃ r1 ∈ registros, ∃ r2 ∈ registros, r1.rfc = rfc ∧ r2.rfc = rfc ∧
        r1.ente ≠ r2.ente ∧ q ∈ r1.qnas ∧ q ∈ r2.qnas) := by
  have hng := grupo_entes_nodup h rfc
  constructor
  · rintro ⟨⟨e1, e2⟩, hp, hq1, hq2⟩
    rcases mem_paresOrdenados hp with ⟨he1, he2⟩
    have hne : e1 ≠ e2 := paresOrdenados_ne (nodup_dedupPrimero _) hp
    rcases mem_entesDelGrupo.1 he1 with ⟨r1, hr1, hre1⟩
    rcases mem_entesDelGrupo.1 he2 with ⟨r2, hr2, hre2⟩
    rcases mem_grupoRfc.1 hr1 with ⟨hr1m, hr1f⟩
    rcases mem_grupoRfc.1 hr2 with ⟨hr2m, hr2f⟩
    refine ⟨r1, hr1m, r2, hr2m, hr1f, hr2f, ?_, ?_, ?_⟩
    · rw [hre1, hre2]; exact hne
    · have := qnasDeEnte_eq hng hr1
      rw [hre1] at this
      rwa [this] at hq1
    · have := qnasDeEnte_eq hng hr2
      rw [hre2] at this
      rwa [this] at hq2
  · rintro ⟨r1, hr1m, r2, hr2m, hr1f, hr2f, hne, hq1, hq2⟩
    have hr1 : r1 ∈ grupoRfc registros rfc := mem_grupoRfc.2 ⟨hr1m, hr1f⟩
    have hr2 : r2 ∈ grupoRfc registros rfc := mem_grupoRfc.2 ⟨hr2m, hr2f⟩
    have he1 : r1.ente ∈ entesDelGrupo (grupoRfc registros rfc) :=
      mem_entesDelGrupo.2 ⟨r1, hr1, rfl⟩
    have he2 : r2.ente ∈ entesDelGrupo (grupoRfc registros rfc) :=
      mem_entesDelGrupo.2 ⟨r2, hr2, rfl⟩
    have hqe1 : q ∈ qnasDeEnte (grupoRfc registros rfc) r1.ente := by
      rw [qnasDeEnte_eq hng hr1]; exact hq1
    have hqe2 : q ∈ qnasDeEnte (grupoRfc registros rfc) r2.ente := by
      rw [qnasDeEnte_eq hng hr2]; exact hq2
    rcases paresOrdenados_total he1 he2 hne with hp | hp
    · exact ⟨(r1.ente, r2.ente), hp, hqe1, hqe2⟩
    · exact ⟨(r2.ente, r1.ente), hp, hqe2, hqe1⟩

theorem detectar_eq_some {rfc : String} {grp : List RegistroLaboral} {c : Cruce} :
    detectarCruceRfc rfc grp = some c ↔
      2 ≤ grp.length ∧ qnasConCruce grp ≠ [] ∧
      c = { rfc := rfc
            nombre := ((grp.head?).map (·.nombre)).getD ""
            entes := entesConCruce grp
            qnasCruce := qnasConCruce grp
            registros := grp
            estado := "Sin valoración"
            solventacion := "" } := by
  unfold detectarCruceRfc
  split_ifs with h1 h2
  · simp only [false_iff, not_and]
    intro h
    omega
  · simp only [false_iff, not_and]
    intro _ hne
    exact absurd (List.isEmpty_eq_true.1 h2) hne
  · constructor
    · intro h
      injection h with h
      refine ⟨by omega, by simpa using h2, h.symm⟩
    · rintro ⟨_, _, rfl⟩
      rfl

theorem mem_obtenerCrucesReales {registros : List RegistroLaboral} {c : Cruce} :
    c ∈ obtenerCrucesReales registros ↔
      ∃ rfc, (∃ r ∈ registros, r.rfc = rfc) ∧
        detectarCruceRfc rfc (grupoRfc registros rfc) = some c := by
  simp [obtenerCrucesReales, List.mem_filterMap, mem_dedupPrimero, grupoRfc]

/-- C1: Cross-Reference Detector.  For every record set with unique
`(taxId, entityKey)` pairs and every taxId: (1) the detector yields a
cross-reference for the taxId iff it has records at two distinct entities
whose active-period sets intersect; and (2) every cross-reference produced
for the taxId has `overlappingPeriods` equal (as a set) to the union of the
non-empty pairwise intersections, and `involvedEntities` equal (as a set)
to the entities that share a period with some other entity of the same
taxId — so an entity whose periods intersect no other entity's periods is
excluded.  A taxId present at a single entity or with pairwise-disjoint
period sets has no cross-reference (the negation of (1)). -/
theorem c1_detector_cruces (registros : List RegistroLaboral)
    (h : (clavesRegistro registros).Nodup) (rfc : String) :
    ((∃ c ∈ obtenerCrucesReales registros, c.rfc = rfc) ↔
      (∃ r1 ∈ registros, ∃ r2 ∈ registros, r1.rfc = rfc ∧ r2.rfc = rfc ∧
        r1.ente ≠ r2.ente ∧ ∃ q, q ∈ r1.qnas ∧ q ∈ r2.qnas)) ∧
    (∀ c ∈ obtenerCrucesReales registros, c.rfc = rfc →
      (∀ q, q ∈ c.qnasCruce ↔
        ∃ r1 ∈ registros, ∃ r2 ∈ registros, r1.rfc = rfc ∧ r2.rfc = rfc ∧
          r1.ente ≠ r2.ente ∧ q ∈ r1.qnas ∧ q ∈ r2.qnas) ∧
      (∀ e, e ∈ c.entes ↔
        ∃ r1 ∈ registros, ∃ r2 ∈ registros, r1.rfc = rfc ∧ r2.rfc = rfc ∧
          r1.ente = e ∧ r2.ente ≠ e ∧ ∃ q, q ∈ r1.qnas ∧ q ∈ r2.qnas)) := by
  have hng := grupo_entes_nodup h rfc
  constructor
  · constructor
    · rintro ⟨c, hc, hcr⟩
      rcases mem_obtenerCrucesReales.1 hc with ⟨rfc', _, hdet⟩
      rcases detectar_eq_some.1 hdet with ⟨_, hne, hcdef⟩
      have hrfc' : rfc' = rfc := by rw [hcdef] at hcr; exact hcr
      subst rfc'
      rcases List.exists_mem_of_ne_nil _ hne with ⟨q, hq⟩
      rcases mem_qnasConCruce.1 hq with ⟨p, hp, hq1, hq2⟩
      rcases (cruce_par_iff h rfc q).1 ⟨p, hp, hq1, hq2⟩ with
        ⟨r1, h1, r2, h2, hf1, hf2, hen, hqa, hqb⟩
      exact ⟨r1, h1, r2, h2, hf1, hf2, hen, q, hqa, hqb⟩
    · rintro ⟨r1, h1, r2, h2, hf1, hf2, hen, q, hqa, hqb⟩
      have hr1g : r1 ∈ grupoRfc registros rfc := mem_grupoRfc.2 ⟨h1, hf1⟩
      have hr2g : r2 ∈ grupoRfc registros rfc := mem_grupoRfc.2 ⟨h2, hf2⟩
      have hq : q ∈ qnasConCruce (grupoRfc registros rfc) := by
        rw [mem_qnasConCruce]
        exact (cruce_par_iff h rfc q).2 ⟨r1, h1, r2, h2, hf1, hf2, hen, hqa, hqb⟩
      have hr12 : r1 ≠ r2 := fun he => hen (he ▸ rfl)
      have hlen : 2 ≤ (grupoRfc registros rfc).length :=
        dos_miembros_length hr1g hr2g hr12
      have hne : qnasConCruce (grupoRfc registros rfc) ≠ [] := by
        intro hnil
        rw [hnil] at hq
        cases hq
      refine ⟨_, mem_obtenerCrucesReales.2 ⟨rfc, ⟨r1, h1, hf1⟩,
        detectar_eq_some.2 ⟨hlen, hne, rfl⟩⟩, rfl⟩
  · rintro c hc hcr
    rcases mem_obtenerCrucesReales.1 hc with ⟨rfc', _, hdet⟩
    rcases detectar_eq_some.1 hdet with ⟨_, _, hcdef⟩
    have hrfc' : rfc' = rfc := by rw [hcdef] at hcr; exact hcr
    subst rfc'
    constructor
    · intro q
      rw [hcdef]
      show q ∈ qnasConCruce (grupoRfc registros rfc) ↔ _
      rw [mem_qnasConCruce]
      exact cruce_par_iff h rfc q
    · intro e
      rw [hcdef]
      show e ∈ entesConCruce (grupoRfc registros rfc) ↔ _
      rw [mem_entesConCruce]
      constructor
      · rintro ⟨⟨e1, e2⟩, hp, hor, q, hq1, hq2⟩
        have hne : e1 ≠ e2 := paresOrdenados_ne (nodup_dedupPrimero _) hp
        rcases mem_paresOrdenados hp with ⟨he1, he2⟩
        rcases mem_entesDelGrupo.1 he1 with ⟨r1, hr1, hre1⟩
        rcases mem_entesDelGrupo.1 he2 with ⟨r2, hr2, hre2⟩
        rcases mem_grupoRfc.1 hr1 with ⟨hr1m, hr1f⟩
        rcases mem_grupoRfc.1 hr2 with ⟨hr2m, hr2f⟩
        have hq1' : q ∈ r1.qnas := by
          have := qnasDeEnte_eq hng hr1
          rw [hre1] at this
          rwa [this] at hq1
        have hq2' : q ∈ r2.qnas := by
          have := qnasDeEnte_eq hng hr2
          rw [hre2] at this
          rwa [this] at hq2
        rcases hor with rfl | rfl
        · exact ⟨r1, hr1m, r2, hr2m, hr1f, hr2f, hre1, by rw [hre2]; exact hne.symm,
            q, hq1', hq2'⟩
        · exact ⟨r2, hr2m, r1, hr1m, hr2f, hr1f, hre2, by rw [hre1]; exact hne,
            q, hq2', hq1'⟩
      · rintro ⟨r1, hr1m, r2, hr2m, hr1f, hr2f, hre1, hre2, q, hq1, hq2⟩
        have hr1g : r1 ∈ grupoRfc registros rfc := mem_grupoRfc.2 ⟨hr1m, hr1f⟩
        have hr2g : r2 ∈ grupoRfc registros rfc := mem_grupoRfc.2 ⟨hr2m, hr2f⟩
        have he1 : r1.ente ∈ entesDelGrupo (grupoRfc registros rfc) :=
          mem_entesDelGrupo.2 ⟨r1, hr1g, rfl⟩
        have he2 : r2.ente ∈ entesDelGrupo (grupoRfc registros rfc) :=
          mem_entesDelGrupo.2 ⟨r2, hr2g, rfl⟩
        have hqe1 : q ∈ qnasDeEnte (grupoRfc registros rfc) r1.ente := by
          rw [qnasDeEnte_eq hng hr1g]; exact hq1
        have hqe2 : q ∈ qnasDeEnte (grupoRfc registros rfc) r2.ente := by
          rw [qnasDeEnte_eq hng hr2g]; exact hq2
        have hen : r1.ente ≠ r2.ente := by
          rw [hre1]
          exact fun hx => hre2 hx.symm
        rcases paresOrdenados_total he1 he2 hen with hp | hp
        · exact ⟨(r1.ente, r2.ente), hp, Or.inl hre1.symm, q, hqe1, hqe2⟩
        · exact ⟨(r2.ente, r1.ente), hp, Or.inr hre1.symm, q, hqe2, hqe1⟩

/-- The worked example of the claim: taxId `RFC1` at entities `A` (periods
{1,2}), `B` (periods {2,3}) and `C` (periods {5}). -/
def registrosEjemploCruce : List RegistroLaboral :=
  [⟨"RFC1", "A", "PERSONA", "P", none, none, none, ["QNA1", "QNA2"]⟩,
   ⟨"RFC1", "B", "PERSONA", "P", none, none, none, ["QNA2", "QNA3"]⟩,
   ⟨"RFC1", "C", "PERSONA", "P", none, none, none, ["QNA5"]⟩]

theorem c1_detector_cruces_witness :
    (clavesRegistro registrosEjemploCruce).Nodup ∧
    (∃ c ∈ obtenerCrucesReales registrosEjemploCruce, c.rfc = "RFC1") ∧
    (obtenerCrucesReales registrosEjemploCruce).map (fun c => (c.entes, c.qnasCruce)) =
      [(["A", "B"], ["QNA2"])] :=
  ⟨by decide,
   (c1_detector_cruces registrosEjemploCruce (by decide) "RFC1").1.mpr
     ⟨⟨"RFC1", "A", "PERSONA", "P", none, none, none, ["QNA1", "QNA2"]⟩, by decide,
      ⟨"RFC1", "B", "PERSONA", "P", none, none, none, ["QNA2", "QNA3"]⟩, by decide,
      rfl, rfl, by decide, "QNA2", by decide, by decide⟩,
   by decide⟩

/- ===================================================================
   Record Store (`registros_laborales` table, core/database.py 43–56, and
   `DatabaseManager.guardar_registros_individuales`, 317–388).
   =================================================================== -/

/-- A stored row of `registros_laborales`.  `fecha_carga` and
`fecha_actualizacion` default to `CURRENT_TIMESTAMP`, embedded as `Nat`
clock values. -/
structure FilaLaboral where
  rfc : String
  ente : String
  nombre : String
  puesto : String
  fechaIngreso : Option String
  fechaEgreso : Option String
  monto : Option String
  qnas : List String
  fechaCarga : Nat
  fechaActualizacion : Nat
deriving DecidableEq, Repr

/-- The `DO UPDATE SET` clause: overwrite the mutable fields and
`fecha_actualizacion`; `rfc`, `ente` and `fecha_carga` are untouched. -/
def actualizarFila (reg : RegistroLaboral) (now : Nat) (f : FilaLaboral) : FilaLaboral :=
  { f with
    nombre := reg.nombre
    puesto := reg.puesto
    fechaIngreso := reg.fechaIngreso
    fechaEgreso := reg.fechaEgreso
    monto := reg.monto
    qnas := reg.qnas
    fechaActualizacion := now }

/-- A freshly inserted row: both timestamps are the statement's
`CURRENT_TIMESTAMP`. -/
def filaNueva (reg : RegistroLaboral) (now : Nat) : FilaLaboral :=
  ⟨reg.rfc, reg.ente, reg.nombre, reg.puesto, reg.fechaIngreso, reg.fechaEgreso,
   reg.monto, reg.qnas, now, now⟩

/-- The `INSERT … ON CONFLICT(rfc, ente) DO UPDATE` statement: update the
conflicting row in place if the pair exists, else append a new row. -/
def upsertRegistro (now : Nat) (tabla : List FilaLaboral) (reg : RegistroLaboral) :
    List FilaLaboral :=
  if tabla.any (fun f => decide (f.rfc = reg.rfc) && decide (f.ente = reg.ente)) then
    tabla.map (fun f =>
      if decide (f.rfc = reg.rfc) && decide (f.ente = reg.ente) then
        actualizarFila reg now f
      else f)
  else tabla ++ [filaNueva reg now]

/-- The `(rfc, ente)` keys of the stored rows. -/
def clavesLaborales (tabla : List FilaLaboral) : List (String × String) :=
  tabla.map (fun f => (f.rfc, f.ente))

/-- A record is silently skipped when `rfc` or `ente` is empty
(`if not rfc or not ente: continue`). -/
def esOmitido (reg : RegistroLaboral) : Bool :=
  decide (reg.rfc = "") || decide (reg.ente = "")

/-- One iteration of the loop of `guardar_registros_individuales`: skip
records with an empty `rfc` or `ente` (`continue`), otherwise run the
upsert statement and classify the branch taken by the source's post-hoc
test `SELECT COUNT(*) … WHERE rfc=? AND ente=? AND fecha_carga <
fecha_actualizacion` on the table state after the statement. -/
def pasoGuardar (now : Nat) (acc : List FilaLaboral × Nat × Nat)
    (reg : RegistroLaboral) : List FilaLaboral × Nat × Nat :=
  if esOmitido reg then acc
  else
    let t := upsertRegistro now acc.1 reg
    if t.any (fun f => decide (f.rfc = reg.rfc) && decide (f.ente = reg.ente) &&
                decide (f.fechaCarga < f.fechaActualizacion)) then
      (t, acc.2.1, acc.2.2 + 1)
    else
      (t, acc.2.1 + 1, acc.2.2)

/-- `DatabaseManager.guardar_registros_individuales`: fold the loop over
the batch.  Returns the final table and the `(insertados, actualizados)`
counters. -/
def guardarRegistrosIndividuales (now : Nat) (tabla : List FilaLaboral)
    (registros : List RegistroLaboral) : List FilaLaboral × Nat × Nat :=
  registros.foldl (pasoGuardar now) (tabla, 0, 0)

/-- One ingestion batch: the record list and its clock value. -/
def guardarLote (tabla : List FilaLaboral) (lote : List RegistroLaboral × Nat) :
    List FilaLaboral :=
  (guardarRegistrosIndividuales lote.2 tabla lote.1).1

/-- Any sequence of upsert batches applied to the initially empty store. -/
def guardarSecuencia (lotes : List (List RegistroLaboral × Nat)) : List FilaLaboral :=
  lotes.foldl guardarLote []

theorem clavesLaborales_actualizar (now : Nat) (reg : RegistroLaboral)
    (tabla : List FilaLaboral) :
    clavesLaborales (tabla.map (fun f =>
      if decide (f.rfc = reg.rfc) && decide (f.ente = reg.ente) then
        actualizarFila reg now f
      else f)) = clavesLaborales tabla := by
  unfold clavesLaborales
  rw [List.map_map]
  apply List.map_congr_left
  intro f _
  simp only [Function.comp_apply]
  by_cases h : f.rfc = reg.rfc ∧ f.ente = reg.ente
  · rw [if_pos (by simp [h.1, h.2])]
    simp [actualizarFila]
  · have hff : (decide (f.rfc = reg.rfc) && decide (f.ente = reg.ente)) = false := by
      rcases Decidable.not_and_iff_or_not.1 h with h' | h' <;> simp [h']
    rw [if_neg (by simp [hff])]

theorem upsertRegistro_update {now : Nat} {tabla : List FilaLaboral}
    {reg : RegistroLaboral}
    (h : (reg.rfc, reg.ente) ∈ clavesLaborales tabla) :
    upsertRegistro now tabla reg = tabla.map (fun f =>
      if decide (f.rfc = reg.rfc) && decide (f.ente = reg.ente) then
        actualizarFila reg now f
      else f) := by
  unfold upsertRegistro
  rw [if_pos]
  rw [List.any_eq_true]
  rcases List.mem_map.1 h with ⟨f, hf, he⟩
  injection he with h1 h2
  exact ⟨f, hf, by simp [h1, h2]⟩

theorem upsertRegistro_insert {now : Nat} {tabla : List FilaLaboral}
    {reg : RegistroLaboral}
    (h : (reg.rfc, reg.ente) ∉ clavesLaborales tabla) :
    upsertRegistro now tabla reg = tabla ++ [filaNueva reg now] := by
  unfold upsertRegistro
  rw [if_neg]
  rw [List.any_eq_true]
  rintro ⟨f, hf, hp⟩
  rcases Bool.and_eq_true_iff.1 hp with ⟨h1, h2⟩
  exact h (List.mem_map.2 ⟨f, hf, by
    simp only [decide_eq_true_eq] at h1 h2
    rw [h1, h2]⟩)

theorem claves_upsert_nodup {now : Nat} {tabla : List FilaLaboral}
    {reg : RegistroLaboral} (h : (clavesLaborales tabla).Nodup) :
    (clavesLaborales (upsertRegistro now tabla reg)).Nodup := by
  by_cases hk : (reg.rfc, reg.ente) ∈ clavesLaborales tabla
  · rw [upsertRegistro_update hk, clavesLaborales_actualizar]
    exact h
  · rw [upsertRegistro_insert hk]
    unfold clavesLaborales at h ⊢
    rw [List.map_append]
    rw [List.nodup_append]
    refine ⟨h, List.nodup_singleton _, ?_⟩
    intro k hkm hks
    rcases List.mem_singleton.1 hks with rfl
    exact hk hkm

theorem pasoGuardar_fst {now : Nat} {acc : List FilaLaboral × Nat × Nat}
    {reg : RegistroLaboral} :
    (pasoGuardar now acc reg).1 =
      if esOmitido reg then acc.1 else upsertRegistro now acc.1 reg := by
  unfold pasoGuardar
  by_cases ho : esOmitido reg = true
  · rw [if_pos ho, if_pos ho]
  · rw [if_neg ho, if_neg ho]
    by_cases hc : ((upsertRegistro now acc.1 reg).any
        (fun f => decide (f.rfc = reg.rfc) && decide (f.ente = reg.ente) &&
          decide (f.fechaCarga < f.fechaActualizacion))) = true
    · simp only [hc, if_true]
    · simp only [hc, if_false, Bool.false_eq_true]

theorem claves_guardar_nodup {now : Nat} {registros : List RegistroLaboral}
    {acc : List FilaLaboral × Nat × Nat} (h : (clavesLaborales acc.1).Nodup) :
    (clavesLaborales (registros.foldl (pasoGuardar now) acc).1).Nodup := by
  induction registros generalizing acc with
  | nil => exact h
  | cons r rest ih =>
    rw [List.foldl_cons]
    apply ih
    rw [pasoGuardar_fst]
    by_cases ho : esOmitido r = true
    · rw [if_pos ho]; exact h
    · rw [if_neg ho]; exact claves_upsert_nodup h

/-- C2: Record Store invariant.  (1) After any sequence of upsert batches
starting from the empty store, the keys `(rfc, ente)` are duplicate-free.
(2) Re-ingesting a record whose `(taxId, entityKey)` pair is already stored
takes the update branch: the table is rewritten in place (same keys, same
length, only the conflicting row replaced), the replaced row keeps its
`fecha_carga`, carries the record's mutable fields, and its
`fecha_actualizacion` becomes the current clock, strictly later than the
old one. -/
theorem c2_almacen_sin_duplicados
    (tabla : List FilaLaboral) (reg : RegistroLaboral) (now : Nat) (f : FilaLaboral)
    (hf : f ∈ tabla) (hrfc : f.rfc = reg.rfc) (hente : f.ente = reg.ente)
    (hclock : f.fechaActualizacion < now) :
    (∀ lotes : List (List RegistroLaboral × Nat),
      (clavesLaborales (guardarSecuencia lotes)).Nodup) ∧
    upsertRegistro now tabla reg = tabla.map (fun g =>
      if decide (g.rfc = reg.rfc) && decide (g.ente = reg.ente) then
        actualizarFila reg now g
      else g) ∧
    actualizarFila reg now f ∈ upsertRegistro now tabla reg ∧
    (actualizarFila reg now f).fechaCarga = f.fechaCarga ∧
    (actualizarFila reg now f).fechaActualizacion = now ∧
    f.fechaActualizacion < (actualizarFila reg now f).fechaActualizacion ∧
    (actualizarFila reg now f).qnas = reg.qnas ∧
    (actualizarFila reg now f).nombre = reg.nombre ∧
    clavesLaborales (upsertRegistro now tabla reg) = clavesLaborales tabla := by
  have hk : (reg.rfc, reg.ente) ∈ clavesLaborales tabla :=
    List.mem_map.2 ⟨f, hf, by rw [hrfc, hente]⟩
  have hupd := @upsertRegistro_update now tabla reg hk
  refine ⟨?_, hupd, ?_, rfl, rfl, hclock, rfl, rfl, ?_⟩
  · intro lotes
    have : ∀ t : List FilaLaboral, (clavesLaborales t).Nodup →
        (clavesLaborales (lotes.foldl guardarLote t)).Nodup := by
      induction lotes with
      | nil => intro t ht; exact ht
      | cons l rest ih =>
        intro t ht
        rw [List.foldl_cons]
        exact ih _ (claves_guardar_nodup ht)
    exact this [] (by simp [clavesLaborales])
  · rw [hupd]
    refine List.mem_map.2 ⟨f, hf, ?_⟩
    rw [if_pos (by simp [hrfc, hente])]
  · rw [hupd, clavesLaborales_actualizar]

/-- Concrete store row and re-ingested record for the C2 witness. -/
def regBaseW : RegistroLaboral :=
  ⟨"RFCW", "E", "N1", "P1", none, none, none, ["QNA1"]⟩

def filaW : FilaLaboral := filaNueva regBaseW 0

def regNuevoW : RegistroLaboral :=
  ⟨"RFCW", "E", "N2", "P2", none, none, none, ["QNA1", "QNA2"]⟩

theorem c2_almacen_sin_duplicados_witness :
    filaW ∈ [filaW] ∧ filaW.rfc = regNuevoW.rfc ∧ filaW.ente = regNuevoW.ente ∧
    filaW.fechaActualizacion < 1 ∧
    (actualizarFila regNuevoW 1 filaW ∈ upsertRegistro 1 [filaW] regNuevoW ∧
     (actualizarFila regNuevoW 1 filaW).fechaCarga = filaW.fechaCarga ∧
     filaW.fechaActualizacion < (actualizarFila regNuevoW 1 filaW).fechaActualizacion ∧
     clavesLaborales (upsertRegistro 1 [filaW] regNuevoW) = clavesLaborales [filaW]) :=
  ⟨by decide, by decide, by decide, by decide,
   (fun h => ⟨h.2.2.1, h.2.2.2.1, h.2.2.2.2.2.1, h.2.2.2.2.2.2.2.2⟩)
     (c2_almacen_sin_duplicados [filaW] regNuevoW 1 filaW
       (by decide) (by decide) (by decide) (by decide))⟩

/- ===================================================================
   C7: the upsert result contract.
   =================================================================== -/

/-- The `(rfc, ente)` keys of the non-skipped records of a batch. -/
def clavesLote (registros : List RegistroLaboral) : List (String × String) :=
  registros.filterMap
    (fun r => if esOmitido r then none else some (r.rfc, r.ente))

def regDuplicadoW : RegistroLaboral :=
  ⟨"RFC9", "A", "N", "P", none, none, none, ["QNA1"]⟩

/-- C7 counterexample: a batch containing the same `(rfc, ente)` record
twice, ingested into the empty store.  The second copy finds the pair
already present (`claves` after the first upsert contain it), so the
update branch runs for it — yet the function reports `(2, 0)`: the
branch test `fecha_carga < fecha_actualizacion` fails because both
timestamps carry the same `CURRENT_TIMESTAMP` value, so the update is
miscounted as an insert. -/
theorem c7_conteo_contraejemplo :
    (guardarRegistrosIndividuales 0 [] [regDuplicadoW, regDuplicadoW]).2 = (2, 0) ∧
    esOmitido regDuplicadoW = false ∧
    (regDuplicadoW.rfc, regDuplicadoW.ente) ∈
      clavesLaborales (upsertRegistro 0 [] regDuplicadoW) := by
  refine ⟨by decide, by decide, by decide⟩

theorem mem_clavesLaborales_upsert {now : Nat} {tabla : List FilaLaboral}
    {reg : RegistroLaboral} {k : String × String} :
    k ∈ clavesLaborales (upsertRegistro now tabla reg) ↔
      k ∈ clavesLaborales tabla ∨ k = (reg.rfc, reg.ente) := by
  by_cases hk : (reg.rfc, reg.ente) ∈ clavesLaborales tabla
  · rw [upsertRegistro_update hk, clavesLaborales_actualizar]
    constructor
    · exact Or.inl
    · rintro (h | rfl)
      · exact h
      · exact hk
  · rw [upsertRegistro_insert hk]
    unfold clavesLaborales
    rw [List.map_append, List.mem_append]
    simp [filaNueva]

theorem carga_upsert {now : Nat} {tabla : List FilaLaboral}
    {reg : RegistroLaboral} {f : FilaLaboral}
    (hf : f ∈ upsertRegistro now tabla reg) :
    (∃ g ∈ tabla, f.fechaCarga = g.fechaCarga ∧ f.rfc = g.rfc ∧ f.ente = g.ente) ∨
      f = filaNueva reg now := by
  by_cases hk : (reg.rfc, reg.ente) ∈ clavesLaborales tabla
  · rw [upsertRegistro_update hk] at hf
    rcases List.mem_map.1 hf with ⟨g, hg, he⟩
    left
    by_cases hc : (decide (g.rfc = reg.rfc) && decide (g.ente = reg.ente)) = true
    · rw [if_pos hc] at he
      exact ⟨g, hg, by rw [← he]; exact ⟨rfl, rfl, rfl⟩⟩
    · rw [if_neg hc] at he
      exact ⟨g, hg, by rw [← he]; exact ⟨rfl, rfl, rfl⟩⟩
  · rw [upsertRegistro_insert hk] at hf
    rcases List.mem_append.1 hf with h | h
    · exact Or.inl ⟨f, h, rfl, rfl, rfl⟩
    · exact Or.inr (List.mem_singleton.1 h)

/-- The generalized counting invariant for the batch fold. -/
theorem guardar_conteo_general (now : Nat) :
    ∀ (registros : List RegistroLaboral) (tabla : List FilaLaboral)
      (ins act : Nat),
      (clavesLaborales tabla).Nodup →
      (clavesLote registros).Nodup →
      (∀ f ∈ tabla, (f.rfc, f.ente) ∈ clavesLote registros →
        f.fechaCarga < now) →
      registros.foldl (pasoGuardar now) (tabla, ins, act) =
        ((registros.filter (fun r => !esOmitido r)).foldl (upsertRegistro now) tabla,
         ins + (registros.filter (fun r => !esOmitido r &&
           !decide ((r.rfc, r.ente) ∈ clavesLaborales tabla))).length,
         act + (registros.filter (fun r => !esOmitido r &&
           decide ((r.rfc, r.ente) ∈ clavesLaborales tabla))).length) := by
  intro registros
  induction registros with
  | nil =>
    intro tabla ins act _ _ _
    simp
  | cons r rest ih =>
    intro tabla ins act hnd hlote hclock
    by_cases ho : esOmitido r = true
    · have hlk : clavesLote (r :: rest) = clavesLote rest := by
        unfold clavesLote
        rw [List.filterMap_cons, if_pos ho]
      rw [List.foldl_cons]
      show rest.foldl (pasoGuardar now) (pasoGuardar now (tabla, ins, act) r) = _
      have hstep : pasoGuardar now (tabla, ins, act) r = (tabla, ins, act) := by
        unfold pasoGuardar
        rw [if_pos ho]
      rw [hstep,
        ih tabla ins act hnd (hlk ▸ hlote) (fun f hf hk => hclock f hf (hlk ▸ hk))]
      simp [List.filter_cons, ho]
    · have hob : esOmitido r = false := Bool.eq_false_iff.2 ho
      have hlk : clavesLote (r :: rest) = (r.rfc, r.ente) :: clavesLote rest := by
        unfold clavesLote
        rw [List.filterMap_cons, if_neg ho]
      rw [hlk] at hlote hclock
      rcases List.nodup_cons.1 hlote with ⟨hknotin, hrest⟩
      rw [List.foldl_cons]
      by_cases hk : (r.rfc, r.ente) ∈ clavesLaborales tabla
      · -- update branch: the pair exists, the post-hoc timestamp test succeeds
        rcases List.mem_map.1 hk with ⟨f0, hf0, hkey⟩
        injection hkey with hkr hke
        have hcarga : f0.fechaCarga < now :=
          hclock f0 hf0 (by rw [hkr, hke]; exact List.mem_cons_self _ _)
        have hact : actualizarFila r now f0 ∈ upsertRegistro now tabla r := by
          rw [upsertRegistro_update hk]
          exact List.mem_map.2 ⟨f0, hf0, by rw [if_pos (by simp [hkr, hke])]⟩
        have hany : ((upsertRegistro now tabla r).any
            (fun f => decide (f.rfc = r.rfc) && decide (f.ente = r.ente) &&
              decide (f.fechaCarga < f.fechaActualizacion))) = true := by
          rw [List.any_eq_true]
          refine ⟨actualizarFila r now f0, hact, ?_⟩
          simp [actualizarFila, hkr, hke, hcarga]
        have hstep : pasoGuardar now (tabla, ins, act) r =
            (upsertRegistro now tabla r, ins, act + 1) := by
          unfold pasoGuardar
          rw [if_neg ho]
          simp only [hany, if_true]
        rw [hstep]
        have hcl : clavesLaborales (upsertRegistro now tabla r) = clavesLaborales tabla := by
          rw [upsertRegistro_update hk, clavesLaborales_actualizar]
        have hnd' : (clavesLaborales (upsertRegistro now tabla r)).Nodup := by
          rw [hcl]; exact hnd
        have hclock' : ∀ f ∈ upsertRegistro now tabla r,
            (f.rfc, f.ente) ∈ clavesLote rest → f.fechaCarga < now := by
          intro f hf hkf
          rcases carga_upsert hf with ⟨g, hg, hcg, hrg, heg⟩ | rfl
          · rw [hcg]
            exact hclock g hg (by rw [← hrg, ← heg]; exact List.mem_cons_of_mem _ hkf)
          · exfalso
            apply hknotin
            simpa [filaNueva] using hkf
        rw [ih (upsertRegistro now tabla r) ins (act + 1) hnd' hrest hclock']
        rw [hcl]
        have hfil : (r :: rest).filter (fun x => !esOmitido x) =
            r :: rest.filter (fun x => !esOmitido x) := by
          rw [List.filter_cons, if_pos (by simp [hob])]
        rw [hfil, List.foldl_cons]
        simp only [Prod.mk.injEq]
        refine ⟨by trivial, ?_, ?_⟩
        · rw [List.filter_cons, if_neg (by simp [hob, hk])]
        · rw [List.filter_cons, if_pos (by simp [hob, hk])]
          rw [List.length_cons]
          omega
      · -- insert branch: the pair is new, the post-hoc timestamp test fails
        have hany : ((upsertRegistro now tabla r).any
            (fun f => decide (f.rfc = r.rfc) && decide (f.ente = r.ente) &&
              decide (f.fechaCarga < f.fechaActualizacion))) = false := by
          rw [upsertRegistro_insert hk, Bool.eq_false_iff]
          intro hcontra
          rcases List.any_eq_true.1 hcontra with ⟨f, hf, hp⟩
          rcases List.mem_append.1 hf with hfm | hfm
          · rcases Bool.and_eq_true_iff.1 hp with ⟨hp1, _⟩
            rcases Bool.and_eq_true_iff.1 hp1 with ⟨ha, hb⟩
            simp only [decide_eq_true_eq] at ha hb
            exact hk (List.mem_map.2 ⟨f, hfm, by rw [ha, hb]⟩)
          · rcases List.mem_singleton.1 hfm with rfl
            rcases Bool.and_eq_true_iff.1 hp with ⟨_, hp2⟩
            simp [filaNueva] at hp2
        have hstep : pasoGuardar now (tabla, ins, act) r =
            (upsertRegistro now tabla r, ins + 1, act) := by
          unfold pasoGuardar
          rw [if_neg ho]
          simp only [hany, if_false, Bool.false_eq_true]
        rw [hstep, upsertRegistro_insert hk]
        have hnd' : (clavesLaborales (tabla ++ [filaNueva r now])).Nodup := by
          have h' := @claves_upsert_nodup now tabla r hnd
          rwa [upsertRegistro_insert hk] at h'
        have hclock' : ∀ f ∈ tabla ++ [filaNueva r now],
            (f.rfc, f.ente) ∈ clavesLote rest → f.fechaCarga < now := by
          intro f hf hkf
          rcases List.mem_append.1 hf with hfm | hfm
          · exact hclock f hfm (List.mem_cons_of_mem _ hkf)
          · rcases List.mem_singleton.1 hfm with rfl
            exfalso
            apply hknotin
            simpa [filaNueva] using hkf
        have hkey_equiv : ∀ x : RegistroLaboral, esOmitido x = false →
            ((x.rfc, x.ente) ∈ clavesLote rest) →
            (((x.rfc, x.ente) ∈ clavesLaborales (tabla ++ [filaNueva r now])) ↔
              ((x.rfc, x.ente) ∈ clavesLaborales tabla)) := by
          intro x _ hxk
          have hxne : (x.rfc, x.ente) ≠ (r.rfc, r.ente) := fun he =>
            hknotin (he ▸ hxk)
          unfold clavesLaborales
          rw [List.map_append, List.mem_append]
          constructor
          · rintro (h' | h')
            · exact h'
            · exact absurd (by simpa [filaNueva] using h') hxne
          · exact Or.inl
        have hmemPos : ∀ x ∈ rest, (!esOmitido x &&
            decide ((x.rfc, x.ente) ∈ clavesLaborales (tabla ++ [filaNueva r now]))) =
            (!esOmitido x && decide ((x.rfc, x.ente) ∈ clavesLaborales tabla)) := by
          intro x hx
          by_cases hox : esOmitido x = true
          · simp [hox]
          · have hob' : esOmitido x = false := Bool.eq_false_iff.2 hox
            have hxk : (x.rfc, x.ente) ∈ clavesLote rest :=
              List.mem_filterMap.2 ⟨x, hx, by rw [if_neg hox]⟩
            simp [hkey_equiv x hob' hxk]
        have hmemNeg : ∀ x ∈ rest, (!esOmitido x &&
            !decide ((x.rfc, x.ente) ∈ clavesLaborales (tabla ++ [filaNueva r now]))) =
            (!esOmitido x && !decide ((x.rfc, x.ente) ∈ clavesLaborales tabla)) := by
          intro x hx
          by_cases hox : esOmitido x = true
          · simp [hox]
          · have hob' : esOmitido x = false := Bool.eq_false_iff.2 hox
            have hxk : (x.rfc, x.ente) ∈ clavesLote rest :=
              List.mem_filterMap.2 ⟨x, hx, by rw [if_neg hox]⟩
            simp [hkey_equiv x hob' hxk]
        rw [ih (tabla ++ [filaNueva r now]) (ins + 1) act hnd' hrest hclock']
        have hfil : (r :: rest).filter (fun x => !esOmitido x) =
            r :: rest.filter (fun x => !esOmitido x) := by
          rw [List.filter_cons, if_pos (by simp [hob])]
        rw [hfil, List.foldl_cons, upsertRegistro_insert hk]
        simp only [Prod.mk.injEq]
        refine ⟨by trivial, ?_, ?_⟩
        · rw [List.filter_congr hmemNeg]
          rw [List.filter_cons, if_pos (by simp [hob, hk])]
          rw [List.length_cons]
          omega
        · rw [List.filter_congr hmemPos]
          rw [List.filter_cons, if_neg (by simp [hob, hk])]

/-- C7 (amended): Upsert result contract.  Records with an empty `taxId`
or `entityKey` are skipped non-fatally — the final table is the fold of the
upsert statement over exactly the non-skipped records — and **provided the
batch contains no duplicate `(taxId, entityKey)` among its non-skipped
records and the batch clock is strictly later than every stored creation
timestamp**, the returned pair counts correctly: `inserted` is the number
of non-skipped records whose pair was absent from the store, `updated` the
number whose pair was present.  (Without the proviso the timestamp-based
branch test miscounts, see `c7_conteo_contraejemplo`.) -/
theorem c7_conteo_upsert (tabla : List FilaLaboral)
    (registros : List RegistroLaboral) (now : Nat)
    (hnd : (clavesLaborales tabla).Nodup)
    (hlote : (clavesLote registros).Nodup)
    (hclock : ∀ f ∈ tabla, f.fechaCarga < now) :
    (guardarRegistrosIndividuales now tabla registros).1 =
      (registros.filter (fun r => !esOmitido r)).foldl (upsertRegistro now) tabla ∧
    (guardarRegistrosIndividuales now tabla registros).2.1 =
      (registros.filter (fun r => !esOmitido r &&
        !decide ((r.rfc, r.ente) ∈ clavesLaborales tabla))).length ∧
    (guardarRegistrosIndividuales now tabla registros).2.2 =
      (registros.filter (fun r => !esOmitido r &&
        decide ((r.rfc, r.ente) ∈ clavesLaborales tabla))).length := by
  have h := guardar_conteo_general now registros tabla 0 0 hnd hlote
    (fun f hf _ => hclock f hf)
  unfold guardarRegistrosIndividuales
  rw [h]
  exact ⟨rfl, by simp, by simp⟩

/-- Batch for the C7 witness: one record updating the stored pair, one
skipped record (empty `rfc`), one fresh insert. -/
def loteW : List RegistroLaboral :=
  [regNuevoW,
   ⟨"", "E", "X", "X", none, none, none, []⟩,
   ⟨"RFCX", "F", "N3", "P3", none, none, none, ["QNA3"]⟩]

theorem c7_conteo_upsert_witness :
    (clavesLaborales [filaW]).Nodup ∧ (clavesLote loteW).Nodup ∧
    (∀ f ∈ [filaW], f.fechaCarga < 1) ∧
    (guardarRegistrosIndividuales 1 [filaW] loteW).2.1 = 1 ∧
    (guardarRegistrosIndividuales 1 [filaW] loteW).2.2 = 1 :=
  ⟨by decide, by decide, by decide,
   (c7_conteo_upsert [filaW] loteW 1 (by decide) (by decide) (by decide)).2.1.trans
     (by decide),
   (c7_conteo_upsert [filaW] loteW 1 (by decide) (by decide) (by decide)).2.2.trans
     (by decide)⟩

/- ===================================================================
   Disposition aggregation (`resultados_por_rfc`, app.py 451–472, over
   `get_solventaciones_por_rfc`, core/database.py 586–597).
   =================================================================== -/

/-- The dict of `get_solventaciones_por_rfc`: `ente ↦ (estado,
comentario)`.  `UNIQUE(rfc, ente)` makes the keys unique for one RFC. -/
abbrev MapaSolvs := List (String × String × String)

/-- Dict lookup `mapa_solvs.get(ente_clave)`. -/
def buscarSolv (solvs : MapaSolvs) (clave : String) : Option (String × String) :=
  (solvs.find? (fun p => p.1 = clave)).map (·.2)

/-- The effective per-record state of the detail view: `estado_ente` when
the record's resolved entity has a recorded disposition, with
`reg.get("estado_ente") or info.get("estado")` falling back to the
default `"Sin valoración"` carried by `info["estado"]`. -/
def estadoEfectivo (catalogo : List Ente) (solvs : MapaSolvs)
    (reg : RegistroLaboral) : String :=
  match (normalizarEnteClave catalogo reg.ente).bind
      (fun k => (buscarSolv solvs k).map (·.1)) with
  | some est => if est = "" then "Sin valoración" else est
  | none => "Sin valoración"

/-- The aggregation block of `resultados_por_rfc`: skipped entirely when no
disposition is recorded (or there are no records), otherwise the set of
effective states decides the reported value — the common value if the set
is a singleton, `"Mixto"` if it has several elements. -/
def estadoAgregado (catalogo : List Ente) (solvs : MapaSolvs)
    (registros : List RegistroLaboral) : String :=
  if solvs.isEmpty || registros.isEmpty then "Sin valoración"
  else
    match (dedupPrimero (registros.map (estadoEfectivo catalogo solvs))).filter
        (fun e => decide (e ≠ "")) with
    | [] => "Sin valoración"
    | [e] => e
    | _ => "Mixto"

theorem estadoEfectivo_ne_vacio (catalogo : List Ente) (solvs : MapaSolvs)
    (reg : RegistroLaboral) : estadoEfectivo catalogo solvs reg ≠ "" := by
  unfold estadoEfectivo
  cases h : (normalizarEnteClave catalogo reg.ente).bind
      (fun k => (buscarSolv solvs k).map (·.1)) with
  | none => decide
  | some est =>
    show (if est = "" then "Sin valoración" else est) ≠ ""
    by_cases he : est = ""
    · rw [if_pos he]; decide
    · rw [if_neg he]; exact he

theorem dedupPrimero_constante {l : List String} {v : String}
    (h : ∀ x ∈ l, x = v) (hne : l ≠ []) : dedupPrimero l = [v] := by
  induction l with
  | nil => exact absurd rfl hne
  | cons x xs ih =>
    have hx : x = v := h x (List.mem_cons_self _ _)
    subst hx
    rw [dedupPrimero]
    by_cases hxs : xs = []
    · subst hxs
      rfl
    · rw [ih (fun y hy => h y (List.mem_cons_of_mem _ hy)) hxs]
      simp

/-- C8: Disposition aggregation.  With at least one recorded disposition
and at least one record: if every record's effective per-entity state is
the same non-empty value `v`, the aggregate is `v`; if two records have
different effective states, the aggregate is `"Mixto"`; and with no
recorded disposition at all the aggregate is the default
`"Sin valoración"` (UNASSESSED). -/
theorem c8_agregacion_estados (catalogo : List Ente) (solvs : MapaSolvs)
    (registros : List RegistroLaboral) (v : String)
    (hs : solvs ≠ []) (hr : registros ≠ []) (hv : v ≠ "") :
    ((∀ reg ∈ registros, estadoEfectivo catalogo solvs reg = v) →
      estadoAgregado catalogo solvs registros = v) ∧
    ((∃ r1 ∈ registros, ∃ r2 ∈ registros,
        estadoEfectivo catalogo solvs r1 ≠ estadoEfectivo catalogo solvs r2) →
      estadoAgregado catalogo solvs registros = "Mixto") ∧
    (∀ regs : List RegistroLaboral, estadoAgregado catalogo [] regs = "Sin valoración") := by
  have hcond : (solvs.isEmpty || registros.isEmpty) = false := by
    simp only [Bool.or_eq_false_iff, List.isEmpty_eq_false]
    exact ⟨hs, hr⟩
  refine ⟨?_, ?_, ?_⟩
  · intro hall
    unfold estadoAgregado
    rw [hcond]
    simp only [Bool.false_eq_true, if_false]
    have hmapc : ∀ x ∈ registros.map (estadoEfectivo catalogo solvs), x = v := by
      intro x hx
      rcases List.mem_map.1 hx with ⟨reg, hreg, he⟩
      rw [← he]
      exact hall reg hreg
    have hmapne : registros.map (estadoEfectivo catalogo solvs) ≠ [] := by
      simpa using hr
    rw [dedupPrimero_constante hmapc hmapne]
    rw [List.filter_cons, if_pos (by simpa using hv)]
    rfl
  · rintro ⟨r1, hr1, r2, hr2, hne⟩
    unfold estadoAgregado
    rw [hcond]
    simp only [Bool.false_eq_true, if_false]
    have h1 : estadoEfectivo catalogo solvs r1 ∈
        (dedupPrimero (registros.map (estadoEfectivo catalogo solvs))).filter
          (fun e => decide (e ≠ "")) := by
      rw [List.mem_filter]
      refine ⟨(mem_dedupPrimero _ _).2 (List.mem_map.2 ⟨r1, hr1, rfl⟩), ?_⟩
      simpa using estadoEfectivo_ne_vacio catalogo solvs r1
    have h2 : estadoEfectivo catalogo solvs r2 ∈
        (dedupPrimero (registros.map (estadoEfectivo catalogo solvs))).filter
          (fun e => decide (e ≠ "")) := by
      rw [List.mem_filter]
      refine ⟨(mem_dedupPrimero _ _).2 (List.mem_map.2 ⟨r2, hr2, rfl⟩), ?_⟩
      simpa using estadoEfectivo_ne_vacio catalogo solvs r2
    cases hlist : (dedupPrimero (registros.map (estadoEfectivo catalogo solvs))).filter
        (fun e => decide (e ≠ "")) with
    | nil =>
      rw [hlist] at h1
      cases h1
    | cons x xs =>
      cases xs with
      | nil =>
        rw [hlist] at h1 h2
        rcases List.mem_singleton.1 h1 with he1
        rcases List.mem_singleton.1 h2 with he2
        exact absurd (he1.trans he2.symm) hne
      | cons y ys => rfl
  · intro regs
    unfold estadoAgregado
    rw [if_pos (by simp)]

def registrosRfcW : List RegistroLaboral :=
  [⟨"RFCS", "ENTE_1_2", "NOM", "P", none, none, none, ["QNA1"]⟩,
   ⟨"RFCS", "ENTE_1_4", "NOM", "P", none, none, none, ["QNA1"]⟩]

def solvsResueltoW : MapaSolvs :=
  [("ENTE_1_2", "Solventado", ""), ("ENTE_1_4", "Solventado", "")]

def solvsMixtoW : MapaSolvs :=
  [("ENTE_1_2", "Solventado", ""), ("ENTE_1_4", "No Solventado", "")]

theorem c8_agregacion_estados_witness :
    estadoAgregado entesBase solvsResueltoW registrosRfcW = "Solventado" ∧
    estadoAgregado entesBase solvsMixtoW registrosRfcW = "Mixto" :=
  ⟨(c8_agregacion_estados entesBase solvsResueltoW registrosRfcW "Solventado"
      (by decide) (by decide) (by decide)).1 (by decide),
   (c8_agregacion_estados entesBase solvsMixtoW registrosRfcW "Solventado"
      (by decide) (by decide) (by decide)).2.1
     ⟨⟨"RFCS", "ENTE_1_2", "NOM", "P", none, none, none, ["QNA1"]⟩, by decide,
      ⟨"RFCS", "ENTE_1_4", "NOM", "P", none, none, none, ["QNA1"]⟩, by decide,
      by decide⟩⟩

/- ===================================================================
   Catalog ordering (`DatabaseManager.listar_entes`,
   core/database.py 161–186).
   =================================================================== -/

/-- Python `str.rstrip('.')`. -/
def rstripPuntos (l : List Char) : List Char :=
  (l.reverse.dropWhile (fun c => decide (c = '.'))).reverse

/-- Python `str.split('.')` on the character list (`"".split('.') = [""]`). -/
def dividirPuntos : List Char → List (List Char)
  | [] => [[]]
  | c :: rest =>
    if c = '.' then [] :: dividirPuntos rest
    else
      match dividirPuntos rest with
      | [] => [[c]]
      | p :: ps => (c :: p) :: ps

/-- The sort key `orden_jerarquico` of `listar_entes`: strip, drop trailing
dots, split on `.`, parse each component with `int(...)` — a component
that raises `ValueError` becomes **0** — and pad with zeros to five
components. -/
def ordenJerarquico (num : String) : List Int :=
  let numStr := rstripPuntos (trimL num.data)
  let partes := (dividirPuntos numStr).map (fun p => (parseEntero (String.mk p)).getD 0)
  partes ++ List.replicate (5 - partes.length) 0

/-- Python tuple comparison on the integer keys. -/
def lexLeInt : List Int → List Int → Bool
  | [], _ => true
  | _ :: _, [] => false
  | a :: as, b :: bs =>
    if a < b then true else if a = b then lexLeInt as bs else false

theorem lexLeInt_total (a b : List Int) : (lexLeInt a b || lexLeInt b a) = true := by
  induction a generalizing b with
  | nil => simp [lexLeInt]
  | cons x xs ih =>
    cases b with
    | nil => simp [lexLeInt]
    | cons y ys =>
      rcases lt_trichotomy x y with h | h | h
      · simp [lexLeInt, h]
      · subst h
        have h1 : ¬ x < x := by omega
        simp only [lexLeInt, h1, if_false, if_pos rfl]
        exact ih ys
      · have h2 : ¬ x < y := by omega
        have h3 : x ≠ y := by omega
        simp [lexLeInt, h, h2, h3]

theorem lexLeInt_trans (a b c : List Int) (h1 : lexLeInt a b = true)
    (h2 : lexLeInt b c = true) : lexLeInt a c = true := by
  induction a generalizing b c with
  | nil => simp [lexLeInt]
  | cons x xs ih =>
    cases b with
    | nil => simp [lexLeInt] at h1
    | cons y ys =>
      cases c with
      | nil => simp [lexLeInt] at h2
      | cons z zs =>
        simp only [lexLeInt] at h1 h2 ⊢
        by_cases hxy : x < y
        · rw [if_pos hxy] at h1
          by_cases hyz : y < z
          · rw [if_pos (by omega : x < z)]
          · by_cases hyze : y = z
            · rw [if_pos (by omega : x < z)]
            · rw [if_neg hyz, if_neg hyze] at h2
              cases h2
        · rw [if_neg hxy] at h1
          by_cases hxye : x = y
          · rw [if_pos hxye] at h1
            subst hxye
            by_cases hyz : x < z
            · rw [if_pos hyz]
            · rw [if_neg hyz] at h2 ⊢
              by_cases hyze : x = z
              · rw [if_pos hyze] at h2 ⊢
                exact ih ys zs h1 h2
              · rw [if_neg hyze] at h2
                cases h2
          · rw [if_neg hxye] at h1
            cases h1

/-- `DatabaseManager.listar_entes`: select the (active) rows and sort them
by the hierarchical key (`data.sort(key=orden_jerarquico)`, a stable sort
by a total transitive comparator, computed here by the stable insertion
sort `ordenarPor`). -/
def listarEntes (entes : List Ente) (soloActivos : Bool) : List Ente :=
  ordenarPor (fun a b => lexLeInt (ordenJerarquico a.num) (ordenJerarquico b.num))
    (if soloActivos then entes.filter (·.activo) else entes)

/-- The claim's key: dotted numeric strings compared component-wise as
integers with a non-numeric component treated as a **large sentinel**
(999, the value the view-level `orden_por_num` of app.py uses). -/
def ordenJerarquicoCentinela (num : String) : List Int :=
  let numStr := rstripPuntos (trimL num.data)
  let partes := (dividirPuntos numStr).map (fun p => (parseEntero (String.mk p)).getD 999)
  partes ++ List.replicate (5 - partes.length) 0

/-- A registry mixing a non-numeric `num` with a numeric one. -/
def entesNoNumerico : List Ente :=
  [⟨"ZZZ", "E_Z", "Zeta", none, true⟩,
   ⟨"1", "E_1", "Uno", none, true⟩]

/-- C9 counterexample: `listar_entes` maps the non-numeric component to 0,
not to a large sentinel, so the entity with `num = "ZZZ"` sorts *before*
the one with `num = "1"`, and the output is not ordered by the claimed
sentinel comparison. -/
theorem c9_orden_contraejemplo :
    (listarEntes entesNoNumerico true).map (·.clave) = ["E_Z", "E_1"] ∧
    ¬ List.Pairwise
        (fun a b => lexLeInt (ordenJerarquicoCentinela a.num)
          (ordenJerarquicoCentinela b.num) = true)
        (listarEntes entesNoNumerico true) := by
  refine ⟨by decide, by decide⟩

/-- C9 (amended): `listEntities` returns exactly the active entities,
ordered by `hierarchyOrder` compared component-wise as integers with a
**non-numeric component treated as 0** (so it sorts before positive
numeric components; the padding to five components also uses 0).  The
large-sentinel treatment the claim describes belongs to the view-level
comparator `orden_por_num`, not to `listar_entes`. -/
theorem c9_listar_entes_orden (entes : List Ente) :
    (listarEntes entes true).Perm (entes.filter (·.activo)) ∧
    List.Pairwise
      (fun a b => lexLeInt (ordenJerarquico a.num) (ordenJerarquico b.num) = true)
      (listarEntes entes true) := by
  constructor
  · unfold listarEntes
    rw [if_pos rfl]
    exact ordenarPor_perm _ _
  · unfold listarEntes
    apply ordenarPor_sorted
    · intro a b
      exact lexLeInt_total _ _
    · intro a b c h1 h2
      exact lexLeInt_trans _ _ _ h1 h2

/- ===================================================================
   Ingestion (`DataProcessor`, core/data_processor.py): RFC cleaning and
   the per-sheet extraction loop of `extraer_registros_individuales`.
   =================================================================== -/

/-- `[^A-Z0-9]` removal: keep exactly ASCII capitals and digits. -/
def esAlfaNum (c : Char) : Bool :=
  ('A' ≤ c && c ≤ 'Z') || ('0' ≤ c && c ≤ '9')

/-- The canonical form of an RFC cell: `str(rfc).strip().upper()` followed
by `re.sub(r"[^A-Z0-9]", "", …)`. -/
def rfcCanonico (v : String) : String :=
  String.mk (((trimL v.data).map pyUpperChar).filter esAlfaNum)

/-- `DataProcessor.limpiar_rfc`: `None` on a missing/NaN cell, otherwise
the canonical form if its length lies in `[10, 13]`, else `None`. -/
def limpiarRfc : Option String → Option String
  | none => none
  | some v =>
    if 10 ≤ (rfcCanonico v).length ∧ (rfcCanonico v).length ≤ 13 then
      some (rfcCanonico v)
    else none

/-- `DataProcessor.get_mapa_siglas` source (`DatabaseManager.get_mapa_siglas`):
`{_sanitize(sigla): clave}` over the active rows whose `siglas` is truthy. -/
def getMapaSiglas (catalogo : List Ente) : List (String × String) :=
  (catalogo.filter (·.activo)).filterMap
    (fun e =>
      match e.siglas with
      | some s => if s = "" then none else some (sanitize s, e.clave)
      | none => none)

/-- `DataProcessor.normalizar_ente_clave`: try the acronym dictionary first
(dict lookup: the last-written binding wins, hence `reverse.find?`), then
fall back to the database resolver. -/
def normalizarEnteClaveDp (catalogo : List Ente) (etiqueta : String) : Option String :=
  if etiqueta = "" then none
  else
    let val := sanitizeText etiqueta
    match (getMapaSiglas catalogo).reverse.find? (fun p => decide (p.1 = val)) with
    | some p => some p.2
    | none => normalizarEnteClave catalogo val

/-- One spreadsheet row: the cell values by column name, `none` for a
missing or NaN cell. -/
structure FilaHoja where
  celdas : List (String × Option String)
deriving DecidableEq, Repr

/-- One sheet: its name (the entity label), its column list and its rows. -/
structure Hoja where
  nombre : String
  columnas : List String
  filas : List FilaHoja
deriving DecidableEq, Repr

/-- `row.get(col)`: `none` for a missing column or a NaN cell. -/
def celda (fila : FilaHoja) (col : String) : Option String :=
  ((fila.celdas.find? (fun c => decide (c.1 = col))).map (·.2)).getD none

/-- The column renaming `str(x).strip().upper().replace(" ", "_")`. -/
def renombrarCol (c : String) : String :=
  String.mk (((trimL c.data).map pyUpperChar).map
    (fun ch => if ch = ' ' then '_' else ch))

/-- The renaming applied to the columns and to every row's keys. -/
def hojaRenombrada (h : Hoja) : Hoja :=
  ⟨h.nombre, h.columnas.map renombrarCol,
   h.filas.map (fun f => ⟨f.celdas.map (fun c => (renombrarCol c.1, c.2))⟩)⟩

def columnasBase : List String := ["RFC", "NOMBRE", "PUESTO", "FECHA_ALTA", "FECHA_BAJA"]

/-- `columnas_base.issubset(df.columns)`. -/
def tieneColumnasBase (cols : List String) : Bool :=
  columnasBase.all (fun c => cols.contains c)

/-- The QNA-column test `re.match(r"^QNA([1-9]|1[0-9]|2[0-4])$", c)`: the
strings matched by that pattern are exactly `"QNA" ++ toString n` for
`n ∈ [1, 24]`. -/
def esColQna (c : String) : Bool :=
  (List.range 24).any (fun i => decide (c = "QNA" ++ toString (i + 1)))

/-- `DataProcessor._es_activo`: NaN is inactive, and so is any value whose
`str(valor).strip().upper()` lies in the inactive set. -/
def esActivo (v : Option String) : Bool :=
  match v with
  | none => false
  | some x => !(["", "0", "0.0", "NO", "N/A", "NA", "NONE"].contains (sanitizeText x))

/-- The body of the row loop of `extraer_registros_individuales`: a row
yields a record iff `limpiar_rfc` accepts its RFC cell (`if not rfc:
continue`).  `limpiar_fecha` (pandas date parsing, an external parsing
mechanic per the specification) is not modelled: the date and amount cells
are carried through raw; the claim does not depend on them. -/
def registroDeFila (claveEnte : String) (qnaCols : List String) (fila : FilaHoja) :
    Option RegistroLaboral :=
  match limpiarRfc (celda fila "RFC") with
  | none => none
  | some rfc =>
    some
      { rfc := rfc
        ente := claveEnte
        nombre := String.mk (trimL ((celda fila "NOMBRE").getD "").data)
        puesto := String.mk (trimL ((celda fila "PUESTO").getD "").data)
        fechaIngreso := celda fila "FECHA_ALTA"
        fechaEgreso := celda fila "FECHA_BAJA"
        monto := celda fila "TOT_PERC"
        qnas := qnaCols.filter (fun q => esActivo (celda fila q)) }

structure Alerta where
  tipo : String
  hoja : String
  archivo : String
deriving DecidableEq, Repr

/-- The per-sheet part of `extraer_registros_individuales`: an unresolvable
sheet name or missing base columns abort the sheet with an alert; otherwise
every row goes through the row loop and no alert is produced. -/
def extraerHoja (catalogo : List Ente) (archivo : String) (h : Hoja) :
    List RegistroLaboral × List Alerta :=
  match normalizarEnteClaveDp catalogo (sanitizeText h.nombre) with
  | none => ([], [⟨"ente_no_encontrado", h.nombre, archivo⟩])
  | some claveEnte =>
    let hr := hojaRenombrada h
    if tieneColumnasBase hr.columnas then
      (hr.filas.filterMap (registroDeFila claveEnte (hr.columnas.filter esColQna)), [])
    else ([], [⟨"columnas_faltantes", h.nombre, archivo⟩])

/-- C10: taxId validity at ingestion.  On a sheet whose name resolves and
whose base columns are present: no alert is produced (failing rows are
silent), the records are exactly the row loop's `filterMap`, and a row
yields a record iff its RFC cell is present and its canonical form —
trim, uppercase, strip every character outside `A–Z0–9` — has length
between 10 and 13; a missing/NaN cell yields none. -/
theorem c10_validez_rfc (catalogo : List Ente) (archivo : String) (h : Hoja)
    (claveEnte : String)
    (hres : normalizarEnteClaveDp catalogo (sanitizeText h.nombre) = some claveEnte)
    (hcols : tieneColumnasBase (hojaRenombrada h).columnas = true) :
    (extraerHoja catalogo archivo h).2 = [] ∧
    (extraerHoja catalogo archivo h).1 =
      (hojaRenombrada h).filas.filterMap
        (registroDeFila claveEnte ((hojaRenombrada h).columnas.filter esColQna)) ∧
    (∀ fila : FilaHoja,
      ((∃ reg, registroDeFila claveEnte ((hojaRenombrada h).columnas.filter esColQna)
          fila = some reg) ↔
        (∃ v, celda fila "RFC" = some v ∧
          10 ≤ (rfcCanonico v).length ∧ (rfcCanonico v).length ≤ 13))) ∧
    limpiarRfc none = none := by
  have hun : extraerHoja catalogo archivo h =
      ((hojaRenombrada h).filas.filterMap
        (registroDeFila claveEnte ((hojaRenombrada h).columnas.filter esColQna)), []) := by
    unfold extraerHoja
    rw [hres]
    simp only [hcols, if_true]
  refine ⟨by rw [hun], by rw [hun], ?_, rfl⟩
  intro fila
  constructor
  · rintro ⟨reg, hreg⟩
    unfold registroDeFila at hreg
    cases hc : celda fila "RFC" with
    | none =>
      rw [hc] at hreg
      simp only [limpiarRfc] at hreg
      cases hreg
    | some v =>
      rw [hc] at hreg
      by_cases hlen : 10 ≤ (rfcCanonico v).length ∧ (rfcCanonico v).length ≤ 13
      · exact ⟨v, rfl, hlen.1, hlen.2⟩
      · simp [limpiarRfc, hlen] at hreg
  · rintro ⟨v, hc, h1, h2⟩
    unfold registroDeFila
    rw [hc]
    simp only [limpiarRfc]
    rw [if_pos ⟨h1, h2⟩]
    exact ⟨_, rfl⟩

/-- The C10 witness sheet: one valid RFC, one too-short RFC, one missing. -/
def hojaW : Hoja :=
  { nombre := "SEGOB"
    columnas := ["RFC", "NOMBRE", "PUESTO", "FECHA_ALTA", "FECHA_BAJA", "QNA1"]
    filas :=
      [⟨[("RFC", some "ABCD800101XYZ"), ("NOMBRE", some "ANA"), ("PUESTO", some "JEFA"),
         ("FECHA_ALTA", none), ("FECHA_BAJA", none), ("QNA1", some "1500")]⟩,
       ⟨[("RFC", some "XX"), ("NOMBRE", some "EVA"), ("PUESTO", some "AUX"),
         ("FECHA_ALTA", none), ("FECHA_BAJA", none), ("QNA1", some "900")]⟩,
       ⟨[("RFC", none), ("NOMBRE", some "LUZ"), ("PUESTO", some "AUX"),
         ("FECHA_ALTA", none), ("FECHA_BAJA", none), ("QNA1", some "800")]⟩] }

theorem c10_validez_rfc_witness :
    normalizarEnteClaveDp entesBase (sanitizeText hojaW.nombre) = some "ENTE_1_2" ∧
    tieneColumnasBase (hojaRenombrada hojaW).columnas = true ∧
    (extraerHoja entesBase "carga.xlsx" hojaW).2 = [] ∧
    ((extraerHoja entesBase "carga.xlsx" hojaW).1.map (·.rfc)) = ["ABCD800101XYZ"] :=
  ⟨by decide, by decide,
   (c10_validez_rfc entesBase "carga.xlsx" hojaW "ENTE_1_2" (by decide) (by decide)).1,
   by decide⟩

/- ===================================================================
   Export Aggregator (`_construir_filas_export`, app.py 594–699, and the
   `N/A` filter of `exportar_por_ente` / `exportar_general`,
   app.py 716–718 and 753–754).
   =================================================================== -/

/-- `reg.get("ente") or "Sin Ente"`. -/
def enteOrigenDe (reg : RegistroLaboral) : String :=
  if reg.ente = "" then "Sin Ente" else reg.ente

/-- `_ente_display` (app.py 187–194). -/
def enteDisplay (cache : CacheEntes) (v : String) : String :=
  if v = "" then "Sin Ente"
  else
    let s := sanitizeText v
    match cache.find? (fun kd =>
        decide (s = kd.1) || decide (s = kd.2.siglas) || decide (s = kd.2.nombre)) with
    | some kd =>
      if kd.2.siglas ≠ "" then kd.2.siglas
      else if kd.2.nombre ≠ "" then kd.2.nombre
      else v
    | none => v

/-- `_ente_sigla` (app.py 177–184). -/
def enteSigla (cache : CacheEntes) (clave : String) : String :=
  if clave = "" then ""
  else
    let s := sanitizeText clave
    match cache.find? (fun kd =>
        decide (s = kd.1) || decide (s = kd.2.siglas) || decide (s = kd.2.nombre)) with
    | some kd =>
      if kd.2.siglas ≠ "" then kd.2.siglas
      else if kd.2.nombre ≠ "" then kd.2.nombre
      else s
    | none => s

/-- `_estatus_label` (app.py 117–125): the three-way classification of the
base status text. -/
def estatusLabel (v : String) : String :=
  let s := String.mk ((trimL v.data).map pyLowerChar)
  if s = "" then "Sin valoración"
  else if contiene s "no" then "No Solventado"
  else if contiene s "solvent" then "Solventado"
  else "Sin valoración"

/-- `qna.replace("QNA", "")`: remove every (left-to-right, non-overlapping)
occurrence of `QNA`. -/
def quitarQna : List Char → List Char
  | 'Q' :: 'N' :: 'A' :: rest => quitarQna rest
  | c :: rest => c :: quitarQna rest
  | [] => []

/-- `qnum = qna.replace("QNA", "").strip(); if qnum.isdigit(): int(qnum)`. -/
def parseQna (q : String) : Option Nat :=
  digitosANat (trimL (quitarQna q.data))

/-- Python `set.add` on the duplicate-free list representation of a set. -/
def agregarSet [DecidableEq α] (x : α) (l : List α) : List α :=
  if x ∈ l then l else l ++ [x]

/-- One value of the `agregados` dict of `_construir_filas_export` (the
underscore-prefixed working fields included; sets are duplicate-free
lists). -/
structure ItemExport where
  rfc : String
  nombre : String
  puesto : String
  fechaAlta : Option String
  fechaBaja : Option String
  monto : Option String
  enteOrigenDisplay : String
  enteOrigenRaw : String
  entesIncomp : List String
  qnasSet : List Nat
  estadoBase : String
  solventacion : String
deriving DecidableEq, Repr

/-- The row identity `(rfc, _sanitize_text(ente_origen), puesto,
fecha_ingreso, fecha_egreso, monto)`. -/
structure ClaveExport where
  rfc : String
  enteNorm : String
  puesto : String
  fechaIngreso : Option String
  fechaEgreso : Option String
  monto : Option String
deriving DecidableEq, Repr

def claveExport (r : Cruce) (reg : RegistroLaboral) : ClaveExport :=
  ⟨r.rfc, sanitizeText (enteOrigenDe reg), reg.puesto,
   reg.fechaIngreso, reg.fechaEgreso, reg.monto⟩

/-- The freshly created `agregados[key]` entry. -/
def baseItem (cache : CacheEntes) (r : Cruce) (reg : RegistroLaboral) : ItemExport :=
  { rfc := r.rfc
    nombre := r.nombre
    puesto := reg.puesto
    fechaAlta := reg.fechaIngreso
    fechaBaja := reg.fechaEgreso
    monto := reg.monto
    enteOrigenDisplay := enteDisplay cache (enteOrigenDe reg)
    enteOrigenRaw := enteOrigenDe reg
    entesIncomp := []
    qnasSet := []
    estadoBase := estatusLabel r.estado
    solventacion := r.solventacion }

/-- The `qnas_por_ente` dict of one result's record group (same
construction as in the detector). -/
def qpeDe (registros : List RegistroLaboral) : List (String × List String) :=
  (dedupPrimero (registros.map (·.ente))).map (fun e => (e, qnasDeEnte registros e))

/-- One iteration of the `for otro_ente, qnas_otro in qnas_por_ente.items()`
loop: a different (sanitized) entity with a non-empty intersection
contributes itself to the incompatible-entity set and its intersecting
parsable periods to the period set. -/
def pasoAporte (actual : List String) (enteOrigen : String)
    (it : ItemExport) (p : String × List String) : ItemExport :=
  if sanitizeText p.1 = sanitizeText enteOrigen then it
  else if (interLista actual p.2).isEmpty then it
  else
    { it with
      entesIncomp := agregarSet p.1 it.entesIncomp
      qnasSet := (interLista actual p.2).foldl
        (fun s q => match parseQna q with
          | some n => agregarSet n s
          | none => s)
        it.qnasSet }

/-- The whole inner loop, with `qnas_ente_actual =
qnas_por_ente.get(ente_origen, set())` computed up front. -/
def aportarInterseccion (qpe : List (String × List String)) (enteOrigen : String)
    (item : ItemExport) : ItemExport :=
  let actual := ((qpe.find? (fun p => decide (p.1 = enteOrigen))).map (·.2)).getD []
  qpe.foldl (pasoAporte actual enteOrigen) item

/-- One iteration of the outer `for reg in registros` loop: create the
entry if the key is new (`if key not in agregados`), then accumulate the
intersections into it. -/
def pasoExport (cache : CacheEntes) (ag : List (ClaveExport × ItemExport))
    (rg : CruceFiltrado × RegistroLaboral) : List (ClaveExport × ItemExport) :=
  match ag.find? (fun p => decide (p.1 = claveExport rg.1.cruce rg.2)) with
  | none =>
    ag ++ [(claveExport rg.1.cruce rg.2,
      aportarInterseccion (qpeDe rg.1.cruce.registros) (enteOrigenDe rg.2)
        (baseItem cache rg.1.cruce rg.2))]
  | some _ =>
    ag.map (fun p =>
      if p.1 = claveExport rg.1.cruce rg.2 then
        (p.1, aportarInterseccion (qpeDe rg.1.cruce.registros) (enteOrigenDe rg.2) p.2)
      else p)

/-- The `agregados` dict after both loops (the nested loops iterate the
flattened (result, record) pairs in order). -/
def agregadosExport (cache : CacheEntes) (resultados : List CruceFiltrado) :
    List (ClaveExport × ItemExport) :=
  (resultados.flatMap (fun r => r.cruce.registros.map (fun reg => (r, reg)))).foldl
    (pasoExport cache) []

/-- A row of the `solventaciones` table as read by the export (a NULL
comment is embedded as `""`, which is equally falsy for the `or`
fallbacks). -/
structure Solventacion where
  rfc : String
  ente : String
  estado : String
  comentario : String
deriving DecidableEq, Repr

/-- `DatabaseManager.get_estado_rfc_ente` (core/database.py 623–636):
`None` when either key part is falsy, else the stored estado of the unique
`(rfc, ente)` row. -/
def getEstadoRfcEnte (solvs : List Solventacion) (rfc : String)
    (ente : Option String) : Option String :=
  match ente with
  | none => none
  | some e =>
    if rfc = "" ∨ e = "" then none
    else (solvs.find? (fun s => decide (s.rfc = rfc) && decide (s.ente = e))).map (·.estado)

/-- The `mapa_coment` dict `{(rfc, ente): comentario}` (last write wins)
looked up at `(rfc, ente_clave)`. -/
def comentarioDe (solvs : List Solventacion) (rfc : String)
    (ente : Option String) : Option String :=
  match ente with
  | none => none
  | some e =>
    (solvs.reverse.find? (fun s => decide (s.rfc = rfc) && decide (s.ente = e))).map
      (·.comentario)

/-- The period-label rule applied when building a row: full cycle at 24 or
more intersecting periods, the sorted listing when some exist, `"N/A"`
otherwise. -/
def etiquetaQuincenas (qs : List Nat) : String :=
  if 24 ≤ qs.length then "Activo en Todo el Ejercicio"
  else if ¬ qs.isEmpty then
    String.intercalate ", " ((ordenarPor leNat qs).map (fun q => "QNA" ++ toString q))
  else "N/A"

/-- One exported row. -/
structure FilaExport where
  rfc : String
  nombre : String
  puesto : String
  fechaAlta : Option String
  fechaBaja : Option String
  monto : Option String
  enteOrigen : String
  entesIncompatibilidad : String
  quincenas : String
  estatus : String
  solventacion : String
deriving DecidableEq, Repr

/-- The row built from one `agregados` entry (the `=== Construir filas ===`
loop): label the periods, join the sorted set of incompatible-entity
acronyms, and apply the disposition precedence for status and comment. -/
def filaDeItem (cache : CacheEntes) (catalogo : List Ente)
    (solvs : List Solventacion) (item : ItemExport) : FilaExport :=
  let quincenas := etiquetaQuincenas item.qnasSet
  let union := String.intercalate ", "
    (ordenarPor leCadena (dedupPrimero (item.entesIncomp.map (enteSigla cache))))
  let entesIncompStr := if union = "" then "Sin otros entes" else union
  let claveEnte := normalizarEnteClave catalogo item.enteOrigenRaw
  let estFinal :=
    match getEstadoRfcEnte solvs item.rfc claveEnte with
    | some e => if e = "" then item.estadoBase else e
    | none => item.estadoBase
  let solvFinal :=
    match comentarioDe solvs item.rfc claveEnte with
    | some c => if c = "" then item.solventacion else c
    | none => item.solventacion
  { rfc := item.rfc
    nombre := item.nombre
    puesto := item.puesto
    fechaAlta := item.fechaAlta
    fechaBaja := item.fechaBaja
    monto := item.monto
    enteOrigen := item.enteOrigenDisplay
    entesIncompatibilidad := entesIncompStr
    quincenas := quincenas
    estatus := estFinal
    solventacion := solvFinal }

/-- `_construir_filas_export` end to end. -/
def construirFilasExport (cache : CacheEntes) (catalogo : List Ente)
    (solvs : List Solventacion) (resultados : List CruceFiltrado) : List FilaExport :=
  (agregadosExport cache resultados).map (fun p => filaDeItem cache catalogo solvs p.2)

/-- The export endpoints' convention filter: rows labeled `"N/A"` are
dropped (`filas = [f for f in filas if f.get("Quincenas") != "N/A"]`). -/
def filasSinNa (filas : List FilaExport) : List FilaExport :=
  filas.filter (fun f => decide (f.quincenas ≠ "N/A"))

/-- The item a record contributes when its key occurs exactly once. -/
def itemExportDe (cache : CacheEntes) (r : CruceFiltrado) (reg : RegistroLaboral) :
    ItemExport :=
  aportarInterseccion (qpeDe r.cruce.registros) (enteOrigenDe reg)
    (baseItem cache r.cruce reg)

theorem mem_agregarSet [DecidableEq α] (x y : α) (l : List α) :
    x ∈ agregarSet y l ↔ x = y ∨ x ∈ l := by
  unfold agregarSet
  by_cases hy : y ∈ l
  · rw [if_pos hy]
    constructor
    · exact Or.inr
    · rintro (rfl | h)
      · exact hy
      · exact h
  · rw [if_neg hy]
    rw [List.mem_append, List.mem_singleton]
    tauto

theorem mem_fold_parseQna (inter : List String) (s0 : List Nat) (n : Nat) :
    n ∈ inter.foldl
        (fun s q => match parseQna q with
          | some m => agregarSet m s
          | none => s) s0 ↔
      n ∈ s0 ∨ ∃ q ∈ inter, parseQna q = some n := by
  induction inter generalizing s0 with
  | nil => simp
  | cons q rest ih =>
    rw [List.foldl_cons]
    cases hq : parseQna q with
    | none =>
      rw [ih]
      constructor
      · rintro (h | h)
        · exact Or.inl h
        · exact Or.inr (by rcases h with ⟨q', hq', hp⟩; exact ⟨q', List.mem_cons_of_mem _ hq', hp⟩)
      · rintro (h | ⟨q', hq', hp⟩)
        · exact Or.inl h
        · rcases List.mem_cons.1 hq' with rfl | hq''
          · rw [hq] at hp; cases hp
          · exact Or.inr ⟨q', hq'', hp⟩
    | some m =>
      rw [ih, mem_agregarSet]
      constructor
      · rintro ((rfl | h) | h)
        · exact Or.inr ⟨q, List.mem_cons_self _ _, hq⟩
        · exact Or.inl h
        · rcases h with ⟨q', hq', hp⟩
          exact Or.inr ⟨q', List.mem_cons_of_mem _ hq', hp⟩
      · rintro (h | ⟨q', hq', hp⟩)
        · exact Or.inl (Or.inr h)
        · rcases List.mem_cons.1 hq' with rfl | hq''
          · rw [hq] at hp
            injection hp with hp
            exact Or.inl (Or.inl hp.symm)
          · exact Or.inr ⟨q', hq'', hp⟩

theorem pasoAporte_entes_sub (actual : List String) (eo : String)
    (it : ItemExport) (p : String × List String) :
    (pasoAporte actual eo it p).qnasSet = it.qnasSet ∨
      (sanitizeText p.1 ≠ sanitizeText eo ∧ ¬ (interLista actual p.2).isEmpty = true ∧
       (pasoAporte actual eo it p).qnasSet =
         (interLista actual p.2).foldl
           (fun s q => match parseQna q with
             | some m => agregarSet m s
             | none => s) it.qnasSet) := by
  unfold pasoAporte
  by_cases h1 : sanitizeText p.1 = sanitizeText eo
  · rw [if_pos h1]
    exact Or.inl rfl
  · rw [if_neg h1]
    by_cases h2 : (interLista actual p.2).isEmpty = true
    · rw [if_pos h2]
      exact Or.inl rfl
    · rw [if_neg h2]
      exact Or.inr ⟨h1, h2, rfl⟩

theorem mem_aportar_qnas (actual : List String) (eo : String)
    (qpe : List (String × List String)) (it : ItemExport) (n : Nat) :
    n ∈ (qpe.foldl (pasoAporte actual eo) it).qnasSet ↔
      n ∈ it.qnasSet ∨
        ∃ p ∈ qpe, sanitizeText p.1 ≠ sanitizeText eo ∧
          ∃ q ∈ interLista actual p.2, parseQna q = some n := by
  induction qpe generalizing it with
  | nil => simp
  | cons p rest ih =>
    rw [List.foldl_cons, ih]
    have hP := pasoAporte_entes_sub actual eo it p
    constructor
    · rintro (h | ⟨p', hp', hs', q, hq', hpq⟩)
      · rcases hP with he | ⟨hs, hne, he⟩
        · rw [he] at h
          exact Or.inl h
        · rw [he, mem_fold_parseQna] at h
          rcases h with h | ⟨q, hq, hpq⟩
          · exact Or.inl h
          · exact Or.inr ⟨p, List.mem_cons_self _ _, hs, q, hq, hpq⟩
      · exact Or.inr ⟨p', List.mem_cons_of_mem _ hp', hs', q, hq', hpq⟩
    · rintro (h | ⟨p', hp', hs', q, hq', hpq⟩)
      · left
        rcases hP with he | ⟨_, _, he⟩
        · rw [he]
          exact h
        · rw [he, mem_fold_parseQna]
          exact Or.inl h
      · rcases List.mem_cons.1 hp' with rfl | hp''
        · left
          unfold pasoAporte
          rw [if_neg hs']
          rw [if_neg (by
            intro hcontra
            rw [List.isEmpty_eq_true] at hcontra
            rw [hcontra] at hq'
            cases hq')]
          show n ∈ (interLista actual p'.2).foldl
            (fun s q => match parseQna q with
              | some m => agregarSet m s
              | none => s) it.qnasSet
          exact (mem_fold_parseQna _ _ _).2 (Or.inr ⟨q, hq', hpq⟩)
        · exact Or.inr ⟨p', hp'', hs', q, hq', hpq⟩

theorem qpeDe_eq {registros : List RegistroLaboral}
    (h : (registros.map (·.ente)).Nodup) :
    qpeDe registros = registros.map (fun reg => (reg.ente, reg.qnas)) := by
  unfold qpeDe
  rw [dedupPrimero_eq_self h, List.map_map]
  apply List.map_congr_left
  intro reg hreg
  simp only [Function.comp_apply]
  rw [qnasDeEnte_eq h hreg]

theorem actual_qpeDe_eq {registros : List RegistroLaboral}
    (h : (registros.map (·.ente)).Nodup) {reg : RegistroLaboral}
    (hr : reg ∈ registros) :
    (((qpeDe registros).find? (fun p => decide (p.1 = reg.ente))).map (·.2)).getD [] =
      reg.qnas := by
  rw [qpeDe_eq h]
  have hmem : (reg.ente, reg.qnas) ∈ registros.map (fun reg => (reg.ente, reg.qnas)) :=
    List.mem_map.2 ⟨reg, hr, rfl⟩
  have hinj := List.inj_on_of_nodup_map h
  have huniq : ∀ x ∈ registros.map (fun reg => (reg.ente, reg.qnas)),
      (decide (x.1 = reg.ente)) = true → x = (reg.ente, reg.qnas) := by
    intro x hx hpx
    rcases List.mem_map.1 hx with ⟨reg', hreg', rfl⟩
    simp only [decide_eq_true_eq] at hpx
    have : reg' = reg := hinj hreg' hr hpx
    rw [this]
  rw [find?_unico hmem (by simp) huniq]
  rfl

theorem entes_nodup_of_sanitized {registros : List RegistroLaboral}
    (h : (registros.map (fun reg => sanitizeText reg.ente)).Nodup) :
    (registros.map (·.ente)).Nodup := by
  have h2 : ((registros.map (·.ente)).map sanitizeText).Nodup := by
    rw [List.map_map]
    exact h
  exact h2.of_map

/-- The set of intersecting period numbers of one record, under unique
sanitized entity names and non-empty entity keys. -/
theorem mem_itemExportDe_qnas (cache : CacheEntes) (r : CruceFiltrado)
    (reg : RegistroLaboral)
    (hs : (r.cruce.registros.map (fun reg => sanitizeText reg.ente)).Nodup)
    (hne : ∀ reg' ∈ r.cruce.registros, reg'.ente ≠ "")
    (hr : reg ∈ r.cruce.registros) (n : Nat) :
    n ∈ (itemExportDe cache r reg).qnasSet ↔
      ∃ q, q ∈ reg.qnas ∧ parseQna q = some n ∧
        ∃ reg2 ∈ r.cruce.registros,
          sanitizeText reg2.ente ≠ sanitizeText reg.ente ∧ q ∈ reg2.qnas := by
  have hnd : (r.cruce.registros.map (·.ente)).Nodup := entes_nodup_of_sanitized hs
  have heo : enteOrigenDe reg = reg.ente := by
    unfold enteOrigenDe
    rw [if_neg (hne reg hr)]
  unfold itemExportDe aportarInterseccion
  rw [heo, actual_qpeDe_eq hnd hr, mem_aportar_qnas]
  have hbase : (baseItem cache r.cruce reg).qnasSet = [] := rfl
  rw [hbase]
  simp only [List.not_mem_nil, false_or]
  rw [qpeDe_eq hnd]
  constructor
  · rintro ⟨p, hp, hsan, q, hq, hpq⟩
    rcases List.mem_map.1 hp with ⟨reg2, hreg2, rfl⟩
    rcases mem_interLista.1 hq with ⟨hq1, hq2⟩
    exact ⟨q, hq1, hpq, reg2, hreg2, hsan, hq2⟩
  · rintro ⟨q, hq1, hpq, reg2, hreg2, hsan, hq2⟩
    exact ⟨(reg2.ente, reg2.qnas), List.mem_map.2 ⟨reg2, hreg2, rfl⟩, hsan, q,
      mem_interLista.2 ⟨hq1, hq2⟩, hpq⟩

/-- The association-list fold builds one entry per record when the row keys
are pairwise distinct. -/
theorem agregados_eq (cache : CacheEntes) :
    ∀ (pares : List (CruceFiltrado × RegistroLaboral))
      (ag : List (ClaveExport × ItemExport)),
      ((pares.map (fun rg => claveExport rg.1.cruce rg.2)).Nodup) →
      (∀ rg ∈ pares, claveExport rg.1.cruce rg.2 ∉ ag.map (·.1)) →
      pares.foldl (pasoExport cache) ag =
        ag ++ pares.map (fun rg =>
          (claveExport rg.1.cruce rg.2, itemExportDe cache rg.1 rg.2)) := by
  intro pares
  induction pares with
  | nil =>
    intro ag _ _
    simp
  | cons rg rest ih =>
    intro ag hnd hdisj
    rcases List.nodup_cons.1 hnd with ⟨hknotin, hrest⟩
    rw [List.foldl_cons]
    have hfind : ag.find? (fun p => decide (p.1 = claveExport rg.1.cruce rg.2)) = none := by
      rw [List.find?_eq_none]
      intro p hp
      simp only [decide_eq_true_eq]
      intro hpk
      exact hdisj rg (List.mem_cons_self _ _) (List.mem_map.2 ⟨p, hp, hpk⟩)
    have hstep : pasoExport cache ag rg =
        ag ++ [(claveExport rg.1.cruce rg.2, itemExportDe cache rg.1 rg.2)] := by
      unfold pasoExport
      rw [hfind]
      rfl
    rw [hstep]
    rw [ih (ag ++ [(claveExport rg.1.cruce rg.2, itemExportDe cache rg.1 rg.2)]) hrest ?_]
    · rw [List.map_cons, List.append_assoc]
      rfl
    · intro rg' hrg' hmem
      rw [List.map_append, List.mem_append] at hmem
      rcases hmem with hmem | hmem
      · exact hdisj rg' (List.mem_cons_of_mem _ hrg') hmem
      · rcases List.mem_singleton.1 hmem with he
        exact hknotin (he ▸ List.mem_map.2 ⟨rg', hrg', rfl⟩)

/-- C5: export period-label rule.  Under distinct row keys and, per result,
distinct sanitized entity names with non-empty entity keys: (1) the export
rows are exactly one per underlying (result, record) pair; (2) for each
such row, the counted period set contains exactly the record's periods that
intersect some *other* entity's periods of the same taxId, the row label is
"Activo en Todo el Ejercicio" at 24 or more counted periods, the sorted
`QNA…` listing when some exist, and `"N/A"` otherwise, and a row whose
counted set is empty is excluded from the filtered export output; (3) the
endpoint filter keeps exactly the rows not labeled `"N/A"`. -/
theorem c5_etiqueta_export (cache : CacheEntes) (catalogo : List Ente)
    (solvs : List Solventacion) (resultados : List CruceFiltrado)
    (hk : ((resultados.flatMap (fun r => r.cruce.registros.map (fun reg => (r, reg)))).map
        (fun rg => claveExport rg.1.cruce rg.2)).Nodup)
    (h2 : ∀ r ∈ resultados,
      (r.cruce.registros.map (fun reg => sanitizeText reg.ente)).Nodup ∧
      ∀ reg ∈ r.cruce.registros, reg.ente ≠ "") :
    (∀ fila, fila ∈ construirFilasExport cache catalogo solvs resultados ↔
      ∃ r ∈ resultados, ∃ reg ∈ r.cruce.registros,
        fila = filaDeItem cache catalogo solvs (itemExportDe cache r reg)) ∧
    (∀ r ∈ resultados, ∀ reg ∈ r.cruce.registros,
      (∀ n, n ∈ (itemExportDe cache r reg).qnasSet ↔
        ∃ q, q ∈ reg.qnas ∧ parseQna q = some n ∧
          ∃ reg2 ∈ r.cruce.registros,
            sanitizeText reg2.ente ≠ sanitizeText reg.ente ∧ q ∈ reg2.qnas) ∧
      ((filaDeItem cache catalogo solvs (itemExportDe cache r reg)).quincenas =
        (if 24 ≤ (itemExportDe cache r reg).qnasSet.length then
           "Activo en Todo el Ejercicio"
         else if (itemExportDe cache r reg).qnasSet ≠ [] then
           String.intercalate ", "
             ((ordenarPor leNat (itemExportDe cache r reg).qnasSet).map
               (fun q => "QNA" ++ toString q))
         else "N/A")) ∧
      ((itemExportDe cache r reg).qnasSet = [] →
        filaDeItem cache catalogo solvs (itemExportDe cache r reg) ∉
          filasSinNa (construirFilasExport cache catalogo solvs resultados))) ∧
    (∀ (filas : List FilaExport) (fila : FilaExport),
      fila ∈ filasSinNa filas ↔ fila ∈ filas ∧ fila.quincenas ≠ "N/A") := by
  have hag : agregadosExport cache resultados =
      (resultados.flatMap (fun r => r.cruce.registros.map (fun reg => (r, reg)))).map
        (fun rg => (claveExport rg.1.cruce rg.2, itemExportDe cache rg.1 rg.2)) := by
    unfold agregadosExport
    exact agregados_eq cache _ [] hk (by simp)
  have hconstruir : ∀ fila,
      fila ∈ construirFilasExport cache catalogo solvs resultados ↔
      ∃ r ∈ resultados, ∃ reg ∈ r.cruce.registros,
        fila = filaDeItem cache catalogo solvs (itemExportDe cache r reg) := by
    intro fila
    unfold construirFilasExport
    rw [hag, List.map_map]
    rw [List.mem_map]
    constructor
    · rintro ⟨rg, hrg, he⟩
      rcases List.mem_flatMap.1 hrg with ⟨r, hr, hrg2⟩
      rcases List.mem_map.1 hrg2 with ⟨reg, hreg, rfl⟩
      exact ⟨r, hr, reg, hreg, he.symm⟩
    · rintro ⟨r, hr, reg, hreg, he⟩
      exact ⟨(r, reg), List.mem_flatMap.2 ⟨r, hr, List.mem_map.2 ⟨reg, hreg, rfl⟩⟩, he.symm⟩
  refine ⟨hconstruir, ?_, ?_⟩
  · intro r hr reg hreg
    refine ⟨mem_itemExportDe_qnas cache r reg (h2 r hr).1 (h2 r hr).2 hreg, ?_, ?_⟩
    · have h0 : (filaDeItem cache catalogo solvs (itemExportDe cache r reg)).quincenas =
          etiquetaQuincenas (itemExportDe cache r reg).qnasSet := rfl
      rw [h0]
      unfold etiquetaQuincenas
      by_cases h24 : 24 ≤ (itemExportDe cache r reg).qnasSet.length
      · rw [if_pos h24, if_pos h24]
      · rw [if_neg h24, if_neg h24]
        by_cases hemp : (itemExportDe cache r reg).qnasSet = []
        · rw [if_neg (by simp [hemp]), if_neg (by simp [hemp])]
        · rw [if_pos (by simp [hemp]), if_pos hemp]
    · intro hnil hmem
      have hq : (filaDeItem cache catalogo solvs (itemExportDe cache r reg)).quincenas =
          "N/A" := by
        show etiquetaQuincenas (itemExportDe cache r reg).qnasSet = "N/A"
        rw [hnil]
        decide
      rcases List.mem_filter.1 hmem with ⟨_, hpred⟩
      simp only [decide_eq_true_eq] at hpred
      exact hpred hq
  · intro filas fila
    unfold filasSinNa
    rw [List.mem_filter]
    simp

/-- The running example pushed through the whole pipeline:
detector → real-duplicate filter → export aggregator. -/
def resultadosW : List CruceFiltrado :=
  filtrarDuplicadosReales (obtenerCrucesReales registrosEjemploCruce)

def cruceW : Cruce :=
  ⟨"RFC1", "PERSONA", ["A", "B"], ["QNA2"], registrosEjemploCruce, "Sin valoración", ""⟩

def resultadoW : CruceFiltrado := ⟨cruceW, ["A", "B"]⟩

theorem c5_etiqueta_export_witness :
    ((resultadosW.flatMap (fun r => r.cruce.registros.map (fun reg => (r, reg)))).map
        (fun rg => claveExport rg.1.cruce rg.2)).Nodup ∧
    (∀ r ∈ resultadosW,
      (r.cruce.registros.map (fun reg => sanitizeText reg.ente)).Nodup ∧
      ∀ reg ∈ r.cruce.registros, reg.ente ≠ "") ∧
    ((construirFilasExport [] [] [] resultadosW).map (·.quincenas)) =
      ["QNA2", "QNA2", "N/A"] ∧
    ((filasSinNa (construirFilasExport [] [] [] resultadosW)).map (·.quincenas)) =
      ["QNA2", "QNA2"] ∧
    (∃ fila, fila ∈ construirFilasExport [] [] [] resultadosW) :=
  ⟨by decide, by decide, by decide, by decide,
   ⟨filaDeItem [] [] []
      (itemExportDe [] resultadoW
        ⟨"RFC1", "A", "PERSONA", "P", none, none, none, ["QNA1", "QNA2"]⟩),
    ((c5_etiqueta_export [] [] [] resultadosW (by decide) (by decide)).1 _).mpr
      ⟨resultadoW, by decide,
       ⟨"RFC1", "A", "PERSONA", "P", none, none, none, ["QNA1", "QNA2"]⟩, by decide,
       rfl⟩⟩⟩
